import Mathlib

/-!
Shallow embedding of the chess rules/AI engine of this repository
(`chess_game/board.py`, `chess_game/pieces.py`, `chess_game/ai.py`,
`chess_game/game.py`).  Coordinates are integers, mirroring Python's
arbitrary-precision ints; the 8×8 grid is a list of rows of optional
pieces, mirroring `self.board = [[None ...] ...]`.  The colors WHITE and
BLACK come from the repository's `constants.py`, which is not part of the
provided sources; they are modelled from the spec as a two-element
enumeration (spec §3: "color (White|Black)").
-/

namespace ChessSpec

/-- Modelled from the spec: the color constants WHITE and BLACK of the
missing `constants.py` (spec §3 "color (White|Black)"). -/
inductive Color where
  | white
  | black
deriving DecidableEq

/-- `BLACK if color == WHITE else WHITE` — the opponent color, as computed
throughout `board.py` and `ai.py`. -/
def Color.other : Color → Color
  | .white => .black
  | .black => .white

/-- The six piece kinds (`Pawn`, `Rook`, `Knight`, `Bishop`, `Queen`,
`King` classes of `pieces.py`). -/
inductive PieceKind where
  | pawn
  | rook
  | knight
  | bishop
  | queen
  | king
deriving DecidableEq

/-- A piece object of `pieces.py`: kind (the Python class), `color`,
`row`, `col`, `has_moved`. -/
structure Piece where
  kind : PieceKind
  color : Color
  row : Int
  col : Int
  hasMoved : Bool
deriving DecidableEq

/-- Snapshot of the four castling-rights flags
(`self.castling_rights` of `Board.__init__`). -/
structure CastlingRights where
  whiteKingside : Bool
  whiteQueenside : Bool
  blackKingside : Bool
  blackQueenside : Bool
deriving DecidableEq

/-- One entry of `self.move_history` as appended by `Board.move_piece`. -/
structure MoveRecord where
  piece : Piece
  start : Int × Int
  endSq : Int × Int
  captured : Option Piece
  enPassant : Option (Int × Int)
  castling : CastlingRights
  halfmove : Nat
  fullmove : Nat
deriving DecidableEq

/-- The board state of `Board.__init__`: grid `self.board` plus game
metadata.  Python's captured-piece lists may hold `None` (the en-passant
branch of `move_piece` appends the looked-up square unconditionally),
hence `List (Option Piece)`. -/
structure Board where
  board : List (List (Option Piece))
  capturedWhite : List (Option Piece)
  capturedBlack : List (Option Piece)
  kingPosWhite : Int × Int
  kingPosBlack : Int × Int
  castleWK : Bool
  castleWQ : Bool
  castleBK : Bool
  castleBQ : Bool
  enPassantTarget : Option (Int × Int)
  halfmoveClock : Nat
  fullmoveCounter : Nat
  moveHistory : List MoveRecord
deriving DecidableEq

/-- `self.king_positions[color]`. -/
def Board.kingPos (b : Board) : Color → Int × Int
  | .white => b.kingPosWhite
  | .black => b.kingPosBlack

/-- `self.captured_pieces[color]`. -/
def Board.captured (b : Board) : Color → List (Option Piece)
  | .white => b.capturedWhite
  | .black => b.capturedBlack

/-- `self.castling_rights[color]['kingside']`. -/
def Board.kingsideRight (b : Board) : Color → Bool
  | .white => b.castleWK
  | .black => b.castleBK

/-- `self.castling_rights[color]['queenside']`. -/
def Board.queensideRight (b : Board) : Color → Bool
  | .white => b.castleWQ
  | .black => b.castleBQ

/-- The current castling-rights flags as a record (what
`self.castling_rights.copy()` snapshots into the history). -/
def Board.rightsSnapshot (b : Board) : CastlingRights :=
  ⟨b.castleWK, b.castleWQ, b.castleBK, b.castleBQ⟩

/-- In-range grid read `self.board[row][col]`; all call sites in the
source index within bounds. -/
def Board.atSq (b : Board) (r c : Int) : Option Piece :=
  if 0 ≤ r ∧ 0 ≤ c then ((b.board[r.toNat]?).bind fun rw => rw[c.toNat]?).join
  else none

/-- In-range grid write `self.board[row][col] = v`. -/
def Board.setSq (b : Board) (r c : Int) (v : Option Piece) : Board :=
  if 0 ≤ r ∧ 0 ≤ c then
    let newRow :=
      match b.board[r.toNat]? with
      | some rw => rw.set c.toNat v
      | none => []
    { b with board := b.board.set r.toNat newRow }
  else b

/-- `Board.is_valid_position`: `0 <= row < 8 and 0 <= col < 8`. -/
def isValidPosition (r c : Int) : Bool :=
  decide (0 ≤ r ∧ r < 8 ∧ 0 ≤ c ∧ c < 8)

/-- `Board.get_piece`: guarded grid read, `None` out of range. -/
def Board.getPiece (b : Board) (r c : Int) : Option Piece :=
  if 0 ≤ r ∧ r < 8 ∧ 0 ≤ c ∧ c < 8 then b.atSq r c else none

/-- Well-formedness of the grid: 8 rows of 8 squares, as built by
`Board.__init__`. -/
def Board.WF (b : Board) : Prop :=
  b.board.length = 8 ∧ ∀ rw ∈ b.board, rw.length = 8

instance (b : Board) : Decidable b.WF := by
  unfold Board.WF; infer_instance

/-- The row-major square enumeration `for row in range(8): for col in
range(8)` used by the scanning loops of `board.py` and `ai.py`. -/
def allSquares : List (Int × Int) :=
  (List.range 8).flatMap (fun r => (List.range 8).map (fun c => (Int.ofNat r, Int.ofNat c)))

theorem mem_allSquares {r c : Int} :
    (r, c) ∈ allSquares ↔ 0 ≤ r ∧ r < 8 ∧ 0 ≤ c ∧ c < 8 := by
  rw [allSquares, List.mem_flatMap]
  constructor
  · rintro ⟨i, hi, hmem⟩
    rw [List.mem_range] at hi
    rw [List.mem_map] at hmem
    obtain ⟨j, hj, hh⟩ := hmem
    rw [List.mem_range] at hj
    cases hh
    simp only [Int.ofNat_eq_natCast]
    omega
  · rintro ⟨h1, h2, h3, h4⟩
    refine ⟨r.toNat, ?_, ?_⟩
    · rw [List.mem_range]; omega
    · rw [List.mem_map]
      refine ⟨c.toNat, ?_, ?_⟩
      · rw [List.mem_range]; omega
      · rw [Prod.mk.injEq]
        simp only [Int.ofNat_eq_natCast]
        constructor <;> omega

theorem atSq_some_bounds {b : Board} (hWF : b.WF) {r c : Int} {p : Piece}
    (h : b.atSq r c = some p) : 0 ≤ r ∧ r < 8 ∧ 0 ≤ c ∧ c < 8 := by
  unfold Board.atSq at h
  split at h
  case isTrue hrc =>
    rcases hrow : b.board[r.toNat]? with _ | rw
    · rw [hrow] at h; simp at h
    · have hrlen : r.toNat < b.board.length := by
        by_contra hcon
        rw [List.getElem?_eq_none (by omega)] at hrow; cases hrow
      have hrwlen : rw.length = 8 := hWF.2 rw (List.getElem?_mem hrow)
      rw [hrow] at h
      have h' : (rw[c.toNat]?).join = some p := h
      rcases hcol : rw[c.toNat]? with _ | q
      · rw [hcol] at h'; simp at h'
      · have hclen : c.toNat < rw.length := by
          by_contra hcon
          rw [List.getElem?_eq_none (by omega)] at hcol; cases hcol
        have h8 : b.board.length = 8 := hWF.1
        refine ⟨hrc.1, by omega, hrc.2, by omega⟩
  case isFalse => cases h

/-- Reading after writing: the written square returns the new value (in
range, well-formed grid), any other square is unchanged. -/
theorem atSq_setSq (b : Board) (hWF : b.WF) (x y : Int)
    (hx0 : 0 ≤ x) (hx8 : x < 8) (hy0 : 0 ≤ y) (hy8 : y < 8)
    (v : Option Piece) (r c : Int) :
    (b.setSq x y v).atSq r c = if r = x ∧ c = y then v else b.atSq r c := by
  have h8 : b.board.length = 8 := hWF.1
  have hxlen : x.toNat < b.board.length := by omega
  obtain ⟨rowx, hrowx⟩ : ∃ w, b.board[x.toNat]? = some w :=
    ⟨b.board[x.toNat], List.getElem?_eq_getElem hxlen⟩
  have hrowlen : rowx.length = 8 := hWF.2 rowx (List.getElem?_mem hrowx)
  have hylen : y.toNat < rowx.length := by omega
  have hset : (b.setSq x y v).board = b.board.set x.toNat (rowx.set y.toNat v) := by
    unfold Board.setSq
    rw [if_pos ⟨hx0, hy0⟩]
    simp [hrowx]
  by_cases hrx : r = x ∧ c = y
  · rw [if_pos hrx]
    unfold Board.atSq
    rw [if_pos ⟨hrx.1.symm ▸ hx0, hrx.2.symm ▸ hy0⟩, hset, hrx.1, hrx.2]
    rw [List.getElem?_set_eq_of_lt _ hxlen]
    show ((rowx.set y.toNat v)[y.toNat]?).join = v
    rw [List.getElem?_set_eq_of_lt _ hylen]
    rfl
  · rw [if_neg hrx]
    unfold Board.atSq
    by_cases hr0 : 0 ≤ r
    · by_cases hc0 : 0 ≤ c
      · rw [if_pos ⟨hr0, hc0⟩, if_pos ⟨hr0, hc0⟩, hset]
        by_cases hrrx : r.toNat = x.toNat
        · have hreq : r = x := by omega
          have hcy : c.toNat ≠ y.toNat := by
            intro hcc
            exact hrx ⟨hreq, by omega⟩
          rw [hreq, List.getElem?_set_eq_of_lt _ hxlen, hrowx]
          show ((rowx.set y.toNat v)[c.toNat]?).join = (rowx[c.toNat]?).join
          rw [List.getElem?_set_ne (Ne.symm hcy)]
        · rw [List.getElem?_set_ne (fun h => hrrx h.symm)]
      · rw [if_neg (fun h => hc0 h.2), if_neg (fun h => hc0 h.2)]
    · rw [if_neg (fun h => hr0 h.1), if_neg (fun h => hr0 h.1)]

theorem setSq_WF (b : Board) (x y : Int) (v : Option Piece) (hWF : b.WF)
    (hx0 : 0 ≤ x) (hx8 : x < 8) : (b.setSq x y v).WF := by
  have h8 : b.board.length = 8 := hWF.1
  have hxlen : x.toNat < b.board.length := by omega
  obtain ⟨rowx, hrowx⟩ : ∃ w, b.board[x.toNat]? = some w :=
    ⟨b.board[x.toNat], List.getElem?_eq_getElem hxlen⟩
  unfold Board.setSq
  split
  · refine ⟨by simp [h8], ?_⟩
    intro w hw
    simp only [hrowx] at hw
    rcases List.mem_or_eq_of_mem_set hw with h | h
    · exact hWF.2 w h
    · subst h
      simp only [List.length_set]
      exact hWF.2 rowx (List.getElem?_mem hrowx)
  · exact hWF

theorem setSq_fields (b : Board) (x y : Int) (v : Option Piece) :
    (b.setSq x y v).capturedWhite = b.capturedWhite ∧
    (b.setSq x y v).capturedBlack = b.capturedBlack ∧
    (b.setSq x y v).kingPosWhite = b.kingPosWhite ∧
    (b.setSq x y v).kingPosBlack = b.kingPosBlack ∧
    (b.setSq x y v).castleWK = b.castleWK ∧
    (b.setSq x y v).castleWQ = b.castleWQ ∧
    (b.setSq x y v).castleBK = b.castleBK ∧
    (b.setSq x y v).castleBQ = b.castleBQ ∧
    (b.setSq x y v).enPassantTarget = b.enPassantTarget ∧
    (b.setSq x y v).halfmoveClock = b.halfmoveClock ∧
    (b.setSq x y v).fullmoveCounter = b.fullmoveCounter ∧
    (b.setSq x y v).moveHistory = b.moveHistory := by
  unfold Board.setSq
  split <;> simp

/-! ### Initial position (`Board.__init__` / `_setup_pieces`) -/

/-- The back rank laid out by `_setup_pieces`: rook, knight, bishop,
queen, king, bishop, knight, rook. -/
def backRank (c : Color) (r : Int) : List (Option Piece) :=
  [some ⟨.rook, c, r, 0, false⟩, some ⟨.knight, c, r, 1, false⟩,
   some ⟨.bishop, c, r, 2, false⟩, some ⟨.queen, c, r, 3, false⟩,
   some ⟨.king, c, r, 4, false⟩, some ⟨.bishop, c, r, 5, false⟩,
   some ⟨.knight, c, r, 6, false⟩, some ⟨.rook, c, r, 7, false⟩]

/-- A rank of eight pawns. -/
def pawnRank (c : Color) (r : Int) : List (Option Piece) :=
  (List.range 8).map (fun i => some ⟨.pawn, c, r, Int.ofNat i, false⟩)

/-- A rank of eight empty squares. -/
def emptyRank : List (Option Piece) :=
  (List.range 8).map (fun _ => none)

/-- `Board.__init__`: the standard starting arrangement, full castling
rights, no en-passant target, clocks at 0 / 1, empty history. -/
def initialBoard : Board where
  board := [backRank .black 0, pawnRank .black 1, emptyRank, emptyRank,
            emptyRank, emptyRank, pawnRank .white 6, backRank .white 7]
  capturedWhite := []
  capturedBlack := []
  kingPosWhite := (7, 4)
  kingPosBlack := (0, 4)
  castleWK := true
  castleWQ := true
  castleBK := true
  castleBQ := true
  enPassantTarget := none
  halfmoveClock := 0
  fullmoveCounter := 1
  moveHistory := []

/-! ### Attack detection (`Board.is_square_under_attack`) -/

/-- The knight offsets of `Knight.get_potential_moves` and of the knight
branch of `is_square_under_attack`. -/
def knightOffsets : List (Int × Int) :=
  [(-2, -1), (-2, 1), (-1, -2), (-1, 2), (1, -2), (1, 2), (2, -1), (2, 1)]

/-- Ray walk of the attack checker: at each step advance one square in
direction `(dr, dc)` from `(r, c)`; report true on reaching the target,
stop at the board edge or the first occupied square (`for i in
range(1, 8)` in `is_square_under_attack`). -/
def rayHits (b : Board) : Nat → Int → Int → Int → Int → Int → Int → Bool
  | 0, _, _, _, _, _, _ => false
  | n + 1, r, c, dr, dc, tr, tc =>
    let nr := r + dr
    let nc := c + dc
    if nr = tr ∧ nc = tc then true
    else if ¬ (isValidPosition nr nc = true) ∨ (b.atSq nr nc).isSome then false
    else rayHits b n nr nc dr dc tr tc

/-- The diagonal direction set of the bishop/queen branch of
`is_square_under_attack`. -/
def attackDiagDirections : List (Int × Int) :=
  [(-1, -1), (-1, 1), (1, -1), (1, 1)]

/-- The straight direction set of the rook/queen branch of
`is_square_under_attack`. -/
def attackStraightDirections : List (Int × Int) :=
  [(-1, 0), (1, 0), (0, -1), (0, 1)]

/-- The adjacent-square offsets of the king branch of
`is_square_under_attack`. -/
def kingAttackOffsets : List (Int × Int) :=
  [(-1, -1), (-1, 0), (-1, 1), (0, -1), (0, 1), (1, -1), (1, 0), (1, 1)]

/-- `direction = -1 if color == WHITE else 1`. -/
def pawnDirection (c : Color) : Int :=
  if c = .white then -1 else 1

/-- The per-piece body of `is_square_under_attack`: whether opponent piece
`q` geometrically threatens `(row, col)`.  The source checks pawn /
knight / (bishop or queen) in one `if`/`elif` chain and (rook or queen) /
king in a second one, so a queen is tested on both diagonals and
straights. -/
def pieceAttacks (b : Board) (q : Piece) (row col : Int) : Bool :=
  (match q.kind with
   | .pawn =>
     let d := pawnDirection q.color
     decide ((row, col) = (q.row + d, q.col - 1) ∨ (row, col) = (q.row + d, q.col + 1))
   | .knight =>
     knightOffsets.any (fun dd => decide ((q.row + dd.1, q.col + dd.2) = (row, col)))
   | .bishop => attackDiagDirections.any (fun dd => rayHits b 7 q.row q.col dd.1 dd.2 row col)
   | .queen => attackDiagDirections.any (fun dd => rayHits b 7 q.row q.col dd.1 dd.2 row col)
   | _ => false) ||
  (match q.kind with
   | .rook => attackStraightDirections.any (fun dd => rayHits b 7 q.row q.col dd.1 dd.2 row col)
   | .queen => attackStraightDirections.any (fun dd => rayHits b 7 q.row q.col dd.1 dd.2 row col)
   | .king =>
     kingAttackOffsets.any (fun dd => decide ((q.row + dd.1, q.col + dd.2) = (row, col)))
   | _ => false)

/-- `Board.is_square_under_attack(row, col, color)`: scan all squares for
opponent pieces and test their raw attack pattern. -/
def Board.isSquareUnderAttack (b : Board) (row col : Int) (color : Color) : Bool :=
  allSquares.any (fun s =>
    match b.atSq s.1 s.2 with
    | some q => q.color = color.other && pieceAttacks b q row col
    | none => false)

/-- `Board.is_in_check(color)`: the cached king square is under attack. -/
def Board.isInCheck (b : Board) (color : Color) : Bool :=
  b.isSquareUnderAttack (b.kingPos color).1 (b.kingPos color).2 color

/-! ### Pseudo-legal move generation (`pieces.py`) -/

/-- `Pawn.get_potential_moves`: forward push, double push from an unmoved
pawn, diagonal captures, en-passant-target captures. -/
def pawnPotentialMoves (p : Piece) (b : Board) : List (Int × Int) :=
  let d := pawnDirection p.color
  let forward :=
    if isValidPosition (p.row + d) p.col = true ∧ b.getPiece (p.row + d) p.col = none then
      (p.row + d, p.col) ::
        (if p.hasMoved = false ∧ isValidPosition (p.row + 2 * d) p.col = true ∧
            b.getPiece (p.row + 2 * d) p.col = none then
          [(p.row + 2 * d, p.col)]
        else [])
    else []
  let caps := ([-1, 1] : List Int).flatMap (fun off =>
    let nc := p.col + off
    let nr := p.row + d
    if isValidPosition nr nc = true then
      (match b.getPiece nr nc with
       | some q => if q.color ≠ p.color then [(nr, nc)] else []
       | none => []) ++
      (if b.enPassantTarget = some (nr, nc) then [(nr, nc)] else [])
    else [])
  forward ++ caps

/-- Sliding-ray generation used by rook, bishop and queen (`for i in
range(1, 8)` walk: empty squares are collected, the first enemy square is
collected then the ray stops, a friendly square or the board edge stops
the ray). -/
def rayMoves (b : Board) (color : Color) : Nat → Int → Int → Int → Int → List (Int × Int)
  | 0, _, _, _, _ => []
  | n + 1, r, c, dr, dc =>
    let nr := r + dr
    let nc := c + dc
    if isValidPosition nr nc = true then
      match b.getPiece nr nc with
      | none => (nr, nc) :: rayMoves b color n nr nc dr dc
      | some q => if q.color ≠ color then [(nr, nc)] else []
    else []

/-- `Rook.get_potential_moves` direction set. -/
def rookDirections : List (Int × Int) :=
  [(-1, 0), (0, 1), (1, 0), (0, -1)]

/-- `Bishop.get_potential_moves` direction set. -/
def bishopDirections : List (Int × Int) :=
  [(-1, -1), (-1, 1), (1, 1), (1, -1)]

/-- `Queen.get_potential_moves` direction set (rook then bishop
directions). -/
def queenDirections : List (Int × Int) :=
  [(-1, 0), (0, 1), (1, 0), (0, -1), (-1, -1), (-1, 1), (1, 1), (1, -1)]

/-- Ray-cast over a direction set (rook/bishop/queen bodies). -/
def slidingMoves (p : Piece) (b : Board) (dirs : List (Int × Int)) : List (Int × Int) :=
  dirs.flatMap (fun dd => rayMoves b p.color 7 p.row p.col dd.1 dd.2)

/-- `Knight.get_potential_moves`: the 8 offsets, filtered to the board
and to squares not occupied by a same-color piece. -/
def knightPotentialMoves (p : Piece) (b : Board) : List (Int × Int) :=
  knightOffsets.filterMap (fun dd =>
    let nr := p.row + dd.1
    let nc := p.col + dd.2
    if isValidPosition nr nc = true then
      match b.getPiece nr nc with
      | none => some (nr, nc)
      | some q => if q.color ≠ p.color then some (nr, nc) else none
    else none)

/-- `King.get_potential_moves` direction set for the 8 adjacent squares. -/
def kingDirections : List (Int × Int) :=
  [(-1, 0), (-1, 1), (0, 1), (1, 1), (1, 0), (1, -1), (0, -1), (-1, -1)]

/-- Python `range(a, b)` over integers (ascending, excludes `b`). -/
def intRangeAsc (a b : Int) : List Int :=
  (List.range (b - a).toNat).map (fun i => a + Int.ofNat i)

/-- Python `range(a, b, -1)` over integers (descending, excludes `b`). -/
def intRangeDesc (a b : Int) : List Int :=
  (List.range (a - b).toNat).map (fun i => a - Int.ofNat i)

/-- `King.get_potential_moves`: the 8 adjacent squares plus the two
castling candidates with their eligibility checks (king unmoved, not in
check, right still held, squares between king and rook empty, pass-through
and landing squares not attacked). -/
def kingPotentialMoves (p : Piece) (b : Board) : List (Int × Int) :=
  let regular := kingDirections.filterMap (fun dd =>
    let nr := p.row + dd.1
    let nc := p.col + dd.2
    if isValidPosition nr nc = true then
      match b.getPiece nr nc with
      | none => some (nr, nc)
      | some q => if q.color ≠ p.color then some (nr, nc) else none
    else none)
  let castles :=
    if p.hasMoved = false ∧ b.isInCheck p.color = false then
      (if b.kingsideRight p.color = true ∧
          (intRangeAsc (p.col + 1) 7).all (fun c => (b.getPiece p.row c).isNone) ∧
          ([p.col + 1, p.col + 2] : List Int).all
            (fun c => !(b.isSquareUnderAttack p.row c p.color)) then
        [(p.row, p.col + 2)]
      else []) ++
      (if b.queensideRight p.color = true ∧
          (intRangeDesc (p.col - 1) 0).all (fun c => (b.getPiece p.row c).isNone) ∧
          ([p.col - 1, p.col - 2] : List Int).all
            (fun c => !(b.isSquareUnderAttack p.row c p.color)) then
        [(p.row, p.col - 2)]
      else [])
    else []
  regular ++ castles

/-- `get_potential_moves` dispatch over the piece's class. -/
def Piece.potentialMoves (p : Piece) (b : Board) : List (Int × Int) :=
  match p.kind with
  | .pawn => pawnPotentialMoves p b
  | .rook => slidingMoves p b rookDirections
  | .knight => knightPotentialMoves p b
  | .bishop => slidingMoves p b bishopDirections
  | .queen => slidingMoves p b queenDirections
  | .king => kingPotentialMoves p b

/-! ### Move application (`Board.move_piece`, `Board._get_move_type`) -/

/-- The move classification of `Board._get_move_type`. -/
inductive MoveType where
  | regular
  | promotion
  | enPassant
  | castlingKingside
  | castlingQueenside
deriving DecidableEq

/-- `Board._get_move_type`: promotion for a pawn reaching the far rank;
en passant for a pawn's one-column sidestep onto an empty square equal to
the stored en-passant target; castling for a king moving two columns. -/
def Board.getMoveType (b : Board) (p : Piece) (sr sc er ec : Int) : MoveType :=
  if p.kind = .pawn then
    if (p.color = .white ∧ er = 0) ∨ (p.color = .black ∧ er = 7) then .promotion
    else if (sc - ec).natAbs = 1 ∧ (b.atSq er ec) = none ∧
        b.enPassantTarget = some (er, ec) then .enPassant
    else .regular
  else if p.kind = .king then
    if ec - sc = 2 then .castlingKingside
    else if sc - ec = 2 then .castlingQueenside
    else .regular
  else .regular

/-- `self.captured_pieces[color].append(v)`. -/
def Board.appendCaptured (b : Board) (c : Color) (v : Option Piece) : Board :=
  match c with
  | .white => { b with capturedWhite := b.capturedWhite ++ [v] }
  | .black => { b with capturedBlack := b.capturedBlack ++ [v] }

/-- `self.king_positions[color] = sq`. -/
def Board.setKingPos (b : Board) (c : Color) (sq : Int × Int) : Board :=
  match c with
  | .white => { b with kingPosWhite := sq }
  | .black => { b with kingPosBlack := sq }

/-- Clearing both castling rights of a color (the king-moved branch of
`move_piece`). -/
def Board.clearRights (b : Board) (c : Color) : Board :=
  match c with
  | .white => { b with castleWK := false, castleWQ := false }
  | .black => { b with castleBK := false, castleBQ := false }

/-- The rook-moved castling-rights update of `move_piece` (`if
isinstance(piece, Rook): ...`). -/
def rookMovedRights (b : Board) (piece : Piece) (sr sc : Int) : Board :=
  if piece.kind = PieceKind.rook then
    if sr = 7 ∧ sc = 0 ∧ piece.color = Color.white then { b with castleWQ := false }
    else if sr = 7 ∧ sc = 7 ∧ piece.color = Color.white then { b with castleWK := false }
    else if sr = 0 ∧ sc = 0 ∧ piece.color = Color.black then { b with castleBQ := false }
    else if sr = 0 ∧ sc = 7 ∧ piece.color = Color.black then { b with castleBK := false }
    else b
  else b

/-- The captured-rook castling-rights update of `move_piece` (`if
captured_piece and isinstance(captured_piece, Rook): ...`). -/
def rookCapturedRights (b : Board) (captured : Option Piece) (er ec : Int) : Board :=
  match captured with
  | some cp =>
    if cp.kind = PieceKind.rook then
      if er = 0 ∧ ec = 0 then { b with castleBQ := false }
      else if er = 0 ∧ ec = 7 then { b with castleBK := false }
      else if er = 7 ∧ ec = 0 then { b with castleWQ := false }
      else if er = 7 ∧ ec = 7 then { b with castleWK := false }
      else b
    else b
  | none => b

/-- `Board.move_piece(start_row, start_col, end_row, end_col)`: returns
`False` leaving the board untouched when no piece stands at the start
square; otherwise performs the en-passant removal / castling rook
relocation, the regular move execution, promotion, king-cache and
castling-rights updates, captured-piece bookkeeping, en-passant target
update, clock updates and the history append, returning `True` with the
updated state. -/
def Board.movePiece (b : Board) (sr sc er ec : Int) : Bool × Board :=
  match b.atSq sr sc with
  | none => (false, b)
  | some piece =>
    let captured0 := b.atSq er ec
    let mt := b.getMoveType piece sr sc er ec
    let bc :=
      match mt with
      | .enPassant =>
        (b.setSq sr ec none).appendCaptured piece.color (b.atSq sr ec)
      | .castlingKingside =>
        (match b.atSq sr 7 with
         | some rk =>
           (b.setSq sr 5 (some { rk with row := sr, col := 5, hasMoved := true })).setSq sr 7 none
         | none => (b.setSq sr 5 none).setSq sr 7 none)
      | .castlingQueenside =>
        (match b.atSq sr 0 with
         | some rk =>
           (b.setSq sr 3 (some { rk with row := sr, col := 3, hasMoved := true })).setSq sr 0 none
         | none => (b.setSq sr 3 none).setSq sr 0 none)
      | _ => b
    let captured := match mt with
      | .enPassant => b.atSq sr ec
      | _ => captured0
    let moved : Piece := { piece with row := er, col := ec, hasMoved := true }
    let b2 := (bc.setSq er ec (some moved)).setSq sr sc none
    let b3 :=
      if mt = .promotion then b2.setSq er ec (some ⟨.queen, piece.color, er, ec, false⟩)
      else b2
    let b4 :=
      if piece.kind = .king then (b3.setKingPos piece.color (er, ec)).clearRights piece.color
      else b3
    let b5 := rookMovedRights b4 piece sr sc
    let b6 := rookCapturedRights b5 captured er ec
    let b7 :=
      if captured.isSome ∧ mt ≠ .enPassant then b6.appendCaptured piece.color captured
      else b6
    let ept :=
      if piece.kind = PieceKind.pawn ∧ (sr - er).natAbs = 2 then some ((sr + er) / 2, sc)
      else none
    let b8 := { b7 with enPassantTarget := ept }
    let b9 := { b8 with halfmoveClock :=
      if piece.kind = PieceKind.pawn ∨ captured.isSome then 0 else b8.halfmoveClock + 1 }
    let b10 := { b9 with fullmoveCounter :=
      if piece.color = Color.black then b9.fullmoveCounter + 1 else b9.fullmoveCounter }
    let entry : MoveRecord :=
      { piece := moved, start := (sr, sc), endSq := (er, ec), captured := captured,
        enPassant := ept, castling := b10.rightsSnapshot,
        halfmove := b10.halfmoveClock, fullmove := b10.fullmoveCounter }
    (true, { b10 with moveHistory := b10.moveHistory ++ [entry] })

/-! ### Projection lemmas for the move-application stages -/

@[simp]
theorem appendCaptured_board (b : Board) (c : Color) (v : Option Piece) :
    (b.appendCaptured c v).board = b.board := by
  cases c <;> rfl

@[simp]
theorem appendCaptured_kingPosWhite (b : Board) (c : Color) (v : Option Piece) :
    (b.appendCaptured c v).kingPosWhite = b.kingPosWhite := by
  cases c <;> rfl

@[simp]
theorem appendCaptured_kingPosBlack (b : Board) (c : Color) (v : Option Piece) :
    (b.appendCaptured c v).kingPosBlack = b.kingPosBlack := by
  cases c <;> rfl

@[simp]
theorem appendCaptured_captured_self (b : Board) (c : Color) (v : Option Piece) :
    (b.appendCaptured c v).captured c = b.captured c ++ [v] := by
  cases c <;> rfl

@[simp]
theorem appendCaptured_captured_other (b : Board) (c : Color) (v : Option Piece) :
    (b.appendCaptured c v).captured c.other = b.captured c.other := by
  cases c <;> rfl

@[simp]
theorem setSq_board_fields (b : Board) (x y : Int) (v : Option Piece) :
    (b.setSq x y v).capturedWhite = b.capturedWhite ∧
    (b.setSq x y v).capturedBlack = b.capturedBlack := by
  unfold Board.setSq
  split <;> simp

@[simp]
theorem setSq_captured (b : Board) (x y : Int) (v : Option Piece) (c : Color) :
    (b.setSq x y v).captured c = b.captured c := by
  cases c <;> simp only [Board.captured] <;> unfold Board.setSq <;> split <;> rfl

@[simp]
theorem setSq_kingPosWhite (b : Board) (x y : Int) (v : Option Piece) :
    (b.setSq x y v).kingPosWhite = b.kingPosWhite := by
  unfold Board.setSq
  split <;> simp

@[simp]
theorem setSq_kingPosBlack (b : Board) (x y : Int) (v : Option Piece) :
    (b.setSq x y v).kingPosBlack = b.kingPosBlack := by
  unfold Board.setSq
  split <;> simp

@[simp]
theorem setKingPos_board (b : Board) (c : Color) (sq : Int × Int) :
    (b.setKingPos c sq).board = b.board := by
  cases c <;> rfl

@[simp]
theorem setKingPos_captured (b : Board) (c : Color) (sq : Int × Int) (d : Color) :
    (b.setKingPos c sq).captured d = b.captured d := by
  cases c <;> cases d <;> rfl

@[simp]
theorem clearRights_board (b : Board) (c : Color) :
    (b.clearRights c).board = b.board := by
  cases c <;> rfl

@[simp]
theorem clearRights_captured (b : Board) (c : Color) (d : Color) :
    (b.clearRights c).captured d = b.captured d := by
  cases c <;> cases d <;> rfl

@[simp]
theorem clearRights_kingPosWhite (b : Board) (c : Color) :
    (b.clearRights c).kingPosWhite = b.kingPosWhite := by
  cases c <;> rfl

@[simp]
theorem clearRights_kingPosBlack (b : Board) (c : Color) :
    (b.clearRights c).kingPosBlack = b.kingPosBlack := by
  cases c <;> rfl

@[simp]
theorem rookMovedRights_board (b : Board) (piece : Piece) (sr sc : Int) :
    (rookMovedRights b piece sr sc).board = b.board := by
  unfold rookMovedRights
  split_ifs <;> rfl

@[simp]
theorem rookMovedRights_captured (b : Board) (piece : Piece) (sr sc : Int) (d : Color) :
    (rookMovedRights b piece sr sc).captured d = b.captured d := by
  unfold rookMovedRights
  cases d <;>
    (split_ifs <;> rfl)

@[simp]
theorem rookMovedRights_kingPosWhite (b : Board) (piece : Piece) (sr sc : Int) :
    (rookMovedRights b piece sr sc).kingPosWhite = b.kingPosWhite := by
  unfold rookMovedRights
  split_ifs <;> rfl

@[simp]
theorem rookMovedRights_kingPosBlack (b : Board) (piece : Piece) (sr sc : Int) :
    (rookMovedRights b piece sr sc).kingPosBlack = b.kingPosBlack := by
  unfold rookMovedRights
  split_ifs <;> rfl

@[simp]
theorem rookCapturedRights_board (b : Board) (captured : Option Piece) (er ec : Int) :
    (rookCapturedRights b captured er ec).board = b.board := by
  unfold rookCapturedRights
  rcases captured with _ | cp
  · rfl
  · dsimp only
    split_ifs <;> rfl

@[simp]
theorem rookCapturedRights_captured (b : Board) (captured : Option Piece) (er ec : Int)
    (d : Color) : (rookCapturedRights b captured er ec).captured d = b.captured d := by
  unfold rookCapturedRights
  rcases captured with _ | cp
  · rfl
  · cases d <;> dsimp only <;>
      (split_ifs <;> rfl)

@[simp]
theorem rookCapturedRights_kingPosWhite (b : Board) (captured : Option Piece) (er ec : Int) :
    (rookCapturedRights b captured er ec).kingPosWhite = b.kingPosWhite := by
  unfold rookCapturedRights
  rcases captured with _ | cp
  · rfl
  · dsimp only
    split_ifs <;> rfl

@[simp]
theorem rookCapturedRights_kingPosBlack (b : Board) (captured : Option Piece) (er ec : Int) :
    (rookCapturedRights b captured er ec).kingPosBlack = b.kingPosBlack := by
  unfold rookCapturedRights
  rcases captured with _ | cp
  · rfl
  · dsimp only
    split_ifs <;> rfl

/-- The grid after `setSq`, exposed as a list operation. -/
@[simp]
theorem setSq_board (b : Board) (x y : Int) (v : Option Piece) :
    (b.setSq x y v).board =
      if 0 ≤ x ∧ 0 ≤ y then
        b.board.set x.toNat
          (match b.board[x.toNat]? with
           | some rw => rw.set y.toNat v
           | none => [])
      else b.board := by
  unfold Board.setSq
  split <;> rfl

theorem atSq_eq_of_board_eq {b b' : Board} (h : b.board = b'.board) (r c : Int) :
    b.atSq r c = b'.atSq r c := by
  unfold Board.atSq
  rw [h]

theorem WF_of_board_eq {b b' : Board} (h : b.board = b'.board) (hWF : b.WF) : b'.WF := by
  unfold Board.WF at hWF ⊢
  rw [← h]
  exact hWF

@[simp]
theorem appendCaptured_kingPos (b : Board) (c : Color) (v : Option Piece) (d : Color) :
    (b.appendCaptured c v).kingPos d = b.kingPos d := by
  cases c <;> cases d <;> rfl

@[simp]
theorem setSq_kingPos (b : Board) (x y : Int) (v : Option Piece) (d : Color) :
    (b.setSq x y v).kingPos d = b.kingPos d := by
  cases d <;> simp only [Board.kingPos] <;> unfold Board.setSq <;> split <;> rfl

@[simp]
theorem setKingPos_kingPos_self (b : Board) (c : Color) (sq : Int × Int) :
    (b.setKingPos c sq).kingPos c = sq := by
  cases c <;> rfl

@[simp]
theorem setKingPos_kingPos_other (b : Board) (c : Color) (sq : Int × Int) :
    (b.setKingPos c sq).kingPos c.other = b.kingPos c.other := by
  cases c <;> rfl

@[simp]
theorem clearRights_kingPos (b : Board) (c : Color) (d : Color) :
    (b.clearRights c).kingPos d = b.kingPos d := by
  cases c <;> cases d <;> rfl

@[simp]
theorem rookMovedRights_kingPos (b : Board) (piece : Piece) (sr sc : Int) (d : Color) :
    (rookMovedRights b piece sr sc).kingPos d = b.kingPos d := by
  cases d <;> simp only [Board.kingPos, rookMovedRights_kingPosWhite, rookMovedRights_kingPosBlack]

@[simp]
theorem rookCapturedRights_kingPos (b : Board) (captured : Option Piece) (er ec : Int)
    (d : Color) : (rookCapturedRights b captured er ec).kingPos d = b.kingPos d := by
  cases d <;> simp only [Board.kingPos, rookCapturedRights_kingPosWhite,
    rookCapturedRights_kingPosBlack]

@[simp]
theorem ite_board (c : Prop) [Decidable c] (a b : Board) :
    (if c then a else b).board = if c then a.board else b.board := by
  split <;> rfl

@[simp]
theorem ite_kingPos (c : Prop) [Decidable c] (a b : Board) (d : Color) :
    (if c then a else b).kingPos d = if c then a.kingPos d else b.kingPos d := by
  split <;> rfl

@[simp]
theorem ite_captured (c : Prop) [Decidable c] (a b : Board) (d : Color) :
    (if c then a else b).captured d = if c then a.captured d else b.captured d := by
  split <;> rfl

@[simp]
theorem ite_kingPosWhite (c : Prop) [Decidable c] (a b : Board) :
    (if c then a else b).kingPosWhite = if c then a.kingPosWhite else b.kingPosWhite := by
  split <;> rfl

@[simp]
theorem ite_kingPosBlack (c : Prop) [Decidable c] (a b : Board) :
    (if c then a else b).kingPosBlack = if c then a.kingPosBlack else b.kingPosBlack := by
  split <;> rfl

@[simp]
theorem ite_capturedWhite (c : Prop) [Decidable c] (a b : Board) :
    (if c then a else b).capturedWhite = if c then a.capturedWhite else b.capturedWhite := by
  split <;> rfl

@[simp]
theorem ite_capturedBlack (c : Prop) [Decidable c] (a b : Board) :
    (if c then a else b).capturedBlack = if c then a.capturedBlack else b.capturedBlack := by
  split <;> rfl

@[simp]
theorem appendCaptured_white_capturedWhite (b : Board) (v : Option Piece) :
    (b.appendCaptured Color.white v).capturedWhite = b.capturedWhite ++ [v] := rfl

@[simp]
theorem appendCaptured_white_capturedBlack (b : Board) (v : Option Piece) :
    (b.appendCaptured Color.white v).capturedBlack = b.capturedBlack := rfl

@[simp]
theorem appendCaptured_black_capturedWhite (b : Board) (v : Option Piece) :
    (b.appendCaptured Color.black v).capturedWhite = b.capturedWhite := rfl

@[simp]
theorem appendCaptured_black_capturedBlack (b : Board) (v : Option Piece) :
    (b.appendCaptured Color.black v).capturedBlack = b.capturedBlack ++ [v] := rfl

@[simp]
theorem setKingPos_white_kingPosWhite (b : Board) (sq : Int × Int) :
    (b.setKingPos Color.white sq).kingPosWhite = sq := rfl

@[simp]
theorem setKingPos_white_kingPosBlack (b : Board) (sq : Int × Int) :
    (b.setKingPos Color.white sq).kingPosBlack = b.kingPosBlack := rfl

@[simp]
theorem setKingPos_black_kingPosWhite (b : Board) (sq : Int × Int) :
    (b.setKingPos Color.black sq).kingPosWhite = b.kingPosWhite := rfl

@[simp]
theorem setKingPos_black_kingPosBlack (b : Board) (sq : Int × Int) :
    (b.setKingPos Color.black sq).kingPosBlack = sq := rfl

@[simp]
theorem setKingPos_capturedWhite (b : Board) (c : Color) (sq : Int × Int) :
    (b.setKingPos c sq).capturedWhite = b.capturedWhite := by
  cases c <;> rfl

@[simp]
theorem setKingPos_capturedBlack (b : Board) (c : Color) (sq : Int × Int) :
    (b.setKingPos c sq).capturedBlack = b.capturedBlack := by
  cases c <;> rfl

@[simp]
theorem clearRights_capturedWhite (b : Board) (c : Color) :
    (b.clearRights c).capturedWhite = b.capturedWhite := by
  cases c <;> rfl

@[simp]
theorem clearRights_capturedBlack (b : Board) (c : Color) :
    (b.clearRights c).capturedBlack = b.capturedBlack := by
  cases c <;> rfl

@[simp]
theorem rookMovedRights_capturedWhite (b : Board) (piece : Piece) (sr sc : Int) :
    (rookMovedRights b piece sr sc).capturedWhite = b.capturedWhite := by
  unfold rookMovedRights
  split_ifs <;> rfl

@[simp]
theorem rookMovedRights_capturedBlack (b : Board) (piece : Piece) (sr sc : Int) :
    (rookMovedRights b piece sr sc).capturedBlack = b.capturedBlack := by
  unfold rookMovedRights
  split_ifs <;> rfl

@[simp]
theorem rookCapturedRights_capturedWhite (b : Board) (captured : Option Piece) (er ec : Int) :
    (rookCapturedRights b captured er ec).capturedWhite = b.capturedWhite := by
  unfold rookCapturedRights
  rcases captured with _ | cp
  · rfl
  · dsimp only
    split_ifs <;> rfl

@[simp]
theorem rookCapturedRights_capturedBlack (b : Board) (captured : Option Piece) (er ec : Int) :
    (rookCapturedRights b captured er ec).capturedBlack = b.capturedBlack := by
  unfold rookCapturedRights
  rcases captured with _ | cp
  · rfl
  · dsimp only
    split_ifs <;> rfl

/-! ### Shape of the `move_piece` result, per move classification -/

theorem getMoveType_promotion_kind {b : Board} {piece : Piece} {sr sc er ec : Int}
    (hmt : b.getMoveType piece sr sc er ec = MoveType.promotion) :
    piece.kind = PieceKind.pawn := by
  unfold Board.getMoveType at hmt
  split_ifs at hmt
  assumption

theorem getMoveType_enPassant_kind {b : Board} {piece : Piece} {sr sc er ec : Int}
    (hmt : b.getMoveType piece sr sc er ec = MoveType.enPassant) :
    piece.kind = PieceKind.pawn := by
  unfold Board.getMoveType at hmt
  split_ifs at hmt
  assumption

theorem getMoveType_castleK_kind {b : Board} {piece : Piece} {sr sc er ec : Int}
    (hmt : b.getMoveType piece sr sc er ec = MoveType.castlingKingside) :
    piece.kind = PieceKind.king ∧ ec = sc + 2 := by
  unfold Board.getMoveType at hmt
  split_ifs at hmt
  constructor
  · assumption
  · omega

theorem getMoveType_castleQ_kind {b : Board} {piece : Piece} {sr sc er ec : Int}
    (hmt : b.getMoveType piece sr sc er ec = MoveType.castlingQueenside) :
    piece.kind = PieceKind.king ∧ ec = sc - 2 := by
  unfold Board.getMoveType at hmt
  split_ifs at hmt
  constructor
  · assumption
  · omega

theorem movePiece_result_regular (b : Board) (sr sc er ec : Int) (piece : Piece)
    (h : b.atSq sr sc = some piece)
    (hmt : b.getMoveType piece sr sc er ec = MoveType.regular) :
    (b.movePiece sr sc er ec).1 = true ∧
    (b.movePiece sr sc er ec).2.board =
      ((b.setSq er ec (some { piece with row := er, col := ec, hasMoved := true })).setSq
        sr sc none).board ∧
    ∀ d, (b.movePiece sr sc er ec).2.kingPos d =
      if piece.kind = PieceKind.king ∧ piece.color = d then (er, ec) else b.kingPos d := by
  unfold Board.movePiece
  rw [h]
  simp only [hmt]
  refine ⟨by trivial, ?_, ?_⟩
  · by_cases hk : piece.kind = PieceKind.king <;> simp [hk]
  · intro d
    by_cases hk : piece.kind = PieceKind.king <;>
      cases d <;> rcases hc : piece.color with _ | _ <;>
        simp [hk, hc, Board.kingPos]

theorem movePiece_result_promotion (b : Board) (sr sc er ec : Int) (piece : Piece)
    (h : b.atSq sr sc = some piece)
    (hmt : b.getMoveType piece sr sc er ec = MoveType.promotion) :
    (b.movePiece sr sc er ec).1 = true ∧
    (b.movePiece sr sc er ec).2.board =
      (((b.setSq er ec (some { piece with row := er, col := ec, hasMoved := true })).setSq
        sr sc none).setSq er ec (some ⟨PieceKind.queen, piece.color, er, ec, false⟩)).board ∧
    ∀ d, (b.movePiece sr sc er ec).2.kingPos d = b.kingPos d := by
  have hkind := getMoveType_promotion_kind hmt
  unfold Board.movePiece
  rw [h]
  simp only [hmt, hkind]
  refine ⟨by trivial, by simp, fun d => ?_⟩
  cases d <;> simp [hkind, Board.kingPos]

theorem movePiece_result_enPassant (b : Board) (sr sc er ec : Int) (piece : Piece)
    (h : b.atSq sr sc = some piece)
    (hmt : b.getMoveType piece sr sc er ec = MoveType.enPassant) :
    (b.movePiece sr sc er ec).1 = true ∧
    (b.movePiece sr sc er ec).2.board =
      (((b.setSq sr ec none).setSq er ec
        (some { piece with row := er, col := ec, hasMoved := true })).setSq sr sc none).board ∧
    (∀ d, (b.movePiece sr sc er ec).2.kingPos d = b.kingPos d) ∧
    (b.movePiece sr sc er ec).2.captured piece.color =
      b.captured piece.color ++ [b.atSq sr ec] ∧
    (b.movePiece sr sc er ec).2.captured piece.color.other =
      b.captured piece.color.other := by
  have hkind := getMoveType_enPassant_kind hmt
  unfold Board.movePiece
  rw [h]
  simp only [hmt, hkind]
  refine ⟨by trivial, by simp, fun d => ?_, ?_, ?_⟩
  · cases d <;> simp [hkind, Board.kingPos]
  · rcases hc : piece.color with _ | _ <;> simp [hkind, hc, Board.captured, Color.other]
  · rcases hc : piece.color with _ | _ <;> simp [hkind, hc, Board.captured, Color.other]

theorem movePiece_result_castleK (b : Board) (sr sc er ec : Int) (piece rk : Piece)
    (h : b.atSq sr sc = some piece)
    (hmt : b.getMoveType piece sr sc er ec = MoveType.castlingKingside)
    (hrk : b.atSq sr 7 = some rk) :
    (b.movePiece sr sc er ec).1 = true ∧
    (b.movePiece sr sc er ec).2.board =
      ((((b.setSq sr 5 (some { rk with row := sr, col := 5, hasMoved := true })).setSq
        sr 7 none).setSq er ec
        (some { piece with row := er, col := ec, hasMoved := true })).setSq sr sc none).board ∧
    (b.movePiece sr sc er ec).2.kingPos piece.color = (er, ec) ∧
    (b.movePiece sr sc er ec).2.kingPos piece.color.other = b.kingPos piece.color.other := by
  have hkind := (getMoveType_castleK_kind hmt).1
  unfold Board.movePiece
  rw [h]
  simp only [hmt, hrk, hkind]
  refine ⟨by trivial, by simp, ?_, ?_⟩
  · rcases hc : piece.color with _ | _ <;> simp [hkind, hc, Board.kingPos]
  · rcases hc : piece.color with _ | _ <;> simp [hkind, hc, Board.kingPos, Color.other]

theorem movePiece_result_castleK_noRook (b : Board) (sr sc er ec : Int) (piece : Piece)
    (h : b.atSq sr sc = some piece)
    (hmt : b.getMoveType piece sr sc er ec = MoveType.castlingKingside)
    (hrk : b.atSq sr 7 = none) :
    (b.movePiece sr sc er ec).1 = true ∧
    (b.movePiece sr sc er ec).2.board =
      ((((b.setSq sr 5 none).setSq sr 7 none).setSq er ec
        (some { piece with row := er, col := ec, hasMoved := true })).setSq sr sc none).board ∧
    (b.movePiece sr sc er ec).2.kingPos piece.color = (er, ec) ∧
    (b.movePiece sr sc er ec).2.kingPos piece.color.other = b.kingPos piece.color.other := by
  have hkind := (getMoveType_castleK_kind hmt).1
  unfold Board.movePiece
  rw [h]
  simp only [hmt, hrk, hkind]
  refine ⟨by trivial, by simp, ?_, ?_⟩
  · rcases hc : piece.color with _ | _ <;> simp [hkind, hc, Board.kingPos]
  · rcases hc : piece.color with _ | _ <;> simp [hkind, hc, Board.kingPos, Color.other]

theorem movePiece_result_castleQ (b : Board) (sr sc er ec : Int) (piece rk : Piece)
    (h : b.atSq sr sc = some piece)
    (hmt : b.getMoveType piece sr sc er ec = MoveType.castlingQueenside)
    (hrk : b.atSq sr 0 = some rk) :
    (b.movePiece sr sc er ec).1 = true ∧
    (b.movePiece sr sc er ec).2.board =
      ((((b.setSq sr 3 (some { rk with row := sr, col := 3, hasMoved := true })).setSq
        sr 0 none).setSq er ec
        (some { piece with row := er, col := ec, hasMoved := true })).setSq sr sc none).board ∧
    (b.movePiece sr sc er ec).2.kingPos piece.color = (er, ec) ∧
    (b.movePiece sr sc er ec).2.kingPos piece.color.other = b.kingPos piece.color.other := by
  have hkind := (getMoveType_castleQ_kind hmt).1
  unfold Board.movePiece
  rw [h]
  simp only [hmt, hrk, hkind]
  refine ⟨by trivial, by simp, ?_, ?_⟩
  · rcases hc : piece.color with _ | _ <;> simp [hkind, hc, Board.kingPos]
  · rcases hc : piece.color with _ | _ <;> simp [hkind, hc, Board.kingPos, Color.other]

theorem movePiece_result_castleQ_noRook (b : Board) (sr sc er ec : Int) (piece : Piece)
    (h : b.atSq sr sc = some piece)
    (hmt : b.getMoveType piece sr sc er ec = MoveType.castlingQueenside)
    (hrk : b.atSq sr 0 = none) :
    (b.movePiece sr sc er ec).1 = true ∧
    (b.movePiece sr sc er ec).2.board =
      ((((b.setSq sr 3 none).setSq sr 0 none).setSq er ec
        (some { piece with row := er, col := ec, hasMoved := true })).setSq sr sc none).board ∧
    (b.movePiece sr sc er ec).2.kingPos piece.color = (er, ec) ∧
    (b.movePiece sr sc er ec).2.kingPos piece.color.other = b.kingPos piece.color.other := by
  have hkind := (getMoveType_castleQ_kind hmt).1
  unfold Board.movePiece
  rw [h]
  simp only [hmt, hrk, hkind]
  refine ⟨by trivial, by simp, ?_, ?_⟩
  · rcases hc : piece.color with _ | _ <;> simp [hkind, hc, Board.kingPos]
  · rcases hc : piece.color with _ | _ <;> simp [hkind, hc, Board.kingPos, Color.other]

/-! ### Legality filtering and terminal predicates (`board.py`) -/

/-- `Board.get_valid_moves(row, col)`: pseudo-legal candidates filtered by
applying each on a deep copy and discarding those that leave the mover's
own king in check. -/
def Board.getValidMoves (b : Board) (row col : Int) : List (Int × Int) :=
  match b.atSq row col with
  | none => []
  | some piece =>
    (piece.potentialMoves b).filter (fun m =>
      !((b.movePiece row col m.1 m.2).2.isInCheck piece.color))

/-- The scanning loop shared by `is_checkmate` and `is_stalemate`: does
any piece of `color` have a nonempty `get_valid_moves` list? -/
def Board.hasAnyValidMove (b : Board) (color : Color) : Bool :=
  allSquares.any (fun s =>
    match b.atSq s.1 s.2 with
    | some p => p.color = color && !(b.getValidMoves s.1 s.2).isEmpty
    | none => false)

/-- `Board.is_checkmate(color)`. -/
def Board.isCheckmate (b : Board) (color : Color) : Bool :=
  if b.isInCheck color = false then false
  else !(b.hasAnyValidMove color)

/-- `Board.is_stalemate(color)`. -/
def Board.isStalemate (b : Board) (color : Color) : Bool :=
  if b.isInCheck color = true then false
  else !(b.hasAnyValidMove color)

/-- The piece collection loop of `is_draw_by_insufficient_material`
(row-major scan of all non-king pieces). -/
def Board.nonKingPieces (b : Board) : List Piece :=
  allSquares.filterMap (fun s =>
    match b.atSq s.1 s.2 with
    | some p => if p.kind ≠ .king then some p else none
    | none => none)

/-- `Board.is_draw_by_insufficient_material`. -/
def Board.isDrawByInsufficientMaterial (b : Board) : Bool :=
  let pieces := b.nonKingPieces
  if pieces.length = 0 then true
  else if pieces.length = 1 then
    match pieces with
    | p :: _ => decide (p.kind = .bishop ∨ p.kind = .knight)
    | [] => false
  else
    match pieces with
    | [p, q] =>
      if p.kind = .bishop ∧ q.kind = .bishop then
        decide ((p.row + p.col) % 2 = (q.row + q.col) % 2)
      else false
    | _ => false

/-! ### The game-level move entry point (`ChessGame.make_move`) -/

/-- The board-relevant slice of `ChessGame.make_move(start, end)`: reject
when there is no piece of the side to move at `start` (via the guarded
`get_piece`) or when `end` is not among `get_valid_moves(start)`;
otherwise delegate to `Board.move_piece`. -/
def makeMove (b : Board) (turn : Color) (start stop : Int × Int) : Bool × Board :=
  match b.getPiece start.1 start.2 with
  | none => (false, b)
  | some piece =>
    if piece.color ≠ turn then (false, b)
    else if (stop.1, stop.2) ∈ b.getValidMoves start.1 start.2 then
      b.movePiece start.1 start.2 stop.1 stop.2
    else (false, b)


/-! ### Helper lemmas -/

theorem hasAnyValidMove_eq_false_iff (b : Board) (color : Color) (hWF : b.WF) :
    b.hasAnyValidMove color = false ↔
      ∀ r c p, b.atSq r c = some p → p.color = color → b.getValidMoves r c = [] := by
  constructor
  · intro h r c p hp hc
    by_contra hne
    have hmem : (r, c) ∈ allSquares := by
      have hb := atSq_some_bounds hWF hp
      exact mem_allSquares.mpr hb
    have htrue : b.hasAnyValidMove color = true := by
      unfold Board.hasAnyValidMove
      rw [List.any_eq_true]
      refine ⟨(r, c), hmem, ?_⟩
      rw [hp]
      rw [Bool.and_eq_true, decide_eq_true_eq, Bool.not_eq_true']
      refine ⟨hc, ?_⟩
      rw [List.isEmpty_eq_false_iff_exists_mem]
      rcases hl : b.getValidMoves r c with _ | ⟨m, ms⟩
      · exact absurd hl hne
      · exact ⟨m, List.mem_cons_self m ms⟩
    rw [h] at htrue
    cases htrue
  · intro h
    rw [Bool.eq_false_iff]
    intro hany
    unfold Board.hasAnyValidMove at hany
    rw [List.any_eq_true] at hany
    obtain ⟨s, hs, hsp⟩ := hany
    rcases hp : b.atSq s.1 s.2 with _ | p
    · rw [hp] at hsp; cases hsp
    · rw [hp] at hsp
      rw [Bool.and_eq_true, decide_eq_true_eq, Bool.not_eq_true'] at hsp
      obtain ⟨hcol, hne⟩ := hsp
      have hempty := h s.1 s.2 p hp hcol
      rw [hempty] at hne
      cases hne

/-! ### Claim theorems -/

/-- C1: for every board and every occupied square, `get_valid_moves`
returns exactly the pseudo-legal candidates whose application (on a copy
of the position) does not leave the mover's own king in check. -/
theorem getValidMoves_exactly_nonSelfCheck (b : Board) (r c : Int) (piece : Piece)
    (h : b.atSq r c = some piece) (m : Int × Int) :
    m ∈ b.getValidMoves r c ↔
      m ∈ piece.potentialMoves b ∧
        (b.movePiece r c m.1 m.2).2.isInCheck piece.color = false := by
  unfold Board.getValidMoves
  rw [h, List.mem_filter, Bool.not_eq_true']

theorem getValidMoves_exactly_nonSelfCheck_witness :
    initialBoard.atSq 6 4 = some ⟨.pawn, .white, 6, 4, false⟩ ∧
    (((4, 4) : Int × Int) ∈ initialBoard.getValidMoves 6 4 ↔
      ((4, 4) : Int × Int) ∈ Piece.potentialMoves ⟨.pawn, .white, 6, 4, false⟩ initialBoard ∧
        (initialBoard.movePiece 6 4 4 4).2.isInCheck Color.white = false) :=
  ⟨by decide,
   getValidMoves_exactly_nonSelfCheck initialBoard 6 4 ⟨.pawn, .white, 6, 4, false⟩
     (by decide) (4, 4)⟩

/-- C3: `is_checkmate(color)` holds exactly when `color` is in check and
no piece of that color has any legal move; `is_stalemate(color)` exactly
when not in check and no legal move; the two are mutually exclusive. -/
theorem checkmate_stalemate_characterization (b : Board) (color : Color) (hWF : b.WF) :
    (b.isCheckmate color = true ↔
      b.isInCheck color = true ∧
        ∀ r c p, b.atSq r c = some p → p.color = color → b.getValidMoves r c = []) ∧
    (b.isStalemate color = true ↔
      b.isInCheck color = false ∧
        ∀ r c p, b.atSq r c = some p → p.color = color → b.getValidMoves r c = []) ∧
    ¬ (b.isCheckmate color = true ∧ b.isStalemate color = true) := by
  have hiff := hasAnyValidMove_eq_false_iff b color hWF
  refine ⟨?_, ?_, ?_⟩
  · unfold Board.isCheckmate
    rcases hchk : b.isInCheck color with _ | _
    · simp
    · rw [if_neg (by simp)]
      rw [Bool.not_eq_true']
      constructor
      · intro h
        exact ⟨rfl, hiff.mp h⟩
      · intro h
        exact hiff.mpr h.2
  · unfold Board.isStalemate
    rcases hchk : b.isInCheck color with _ | _
    · rw [if_neg (by simp)]
      rw [Bool.not_eq_true']
      constructor
      · intro h
        exact ⟨rfl, hiff.mp h⟩
      · intro h
        exact hiff.mpr h.2
    · simp
  · rintro ⟨h1, h2⟩
    unfold Board.isCheckmate at h1
    unfold Board.isStalemate at h2
    rcases hchk : b.isInCheck color with _ | _
    · rw [hchk] at h1
      simp at h1
    · rw [hchk] at h2
      simp at h2

theorem checkmate_stalemate_characterization_witness :
    initialBoard.WF ∧
    ((initialBoard.isCheckmate .white = true ↔
      initialBoard.isInCheck .white = true ∧
        ∀ r c p, initialBoard.atSq r c = some p → p.color = .white →
          initialBoard.getValidMoves r c = []) ∧
    (initialBoard.isStalemate .white = true ↔
      initialBoard.isInCheck .white = false ∧
        ∀ r c p, initialBoard.atSq r c = some p → p.color = .white →
          initialBoard.getValidMoves r c = []) ∧
    ¬ (initialBoard.isCheckmate .white = true ∧ initialBoard.isStalemate .white = true)) :=
  ⟨by decide, checkmate_stalemate_characterization initialBoard .white (by decide)⟩

/-- C6: after a successful `move_piece`, the en-passant target is set
exactly for a pawn moving two rows (to the midpoint row, in the start
column) and is cleared to `None` by every other move. -/
theorem movePiece_enPassantTarget (b : Board) (sr sc er ec : Int) (piece : Piece) (b' : Board)
    (h : b.atSq sr sc = some piece) (hres : b.movePiece sr sc er ec = (true, b')) :
    b'.enPassantTarget =
      if piece.kind = PieceKind.pawn ∧ (sr - er).natAbs = 2 then some ((sr + er) / 2, sc)
      else none := by
  have hb' : b' = (b.movePiece sr sc er ec).2 := by rw [hres]
  subst hb'
  unfold Board.movePiece
  rw [h]

theorem movePiece_enPassantTarget_witness :
    initialBoard.atSq 6 4 = some ⟨.pawn, .white, 6, 4, false⟩ ∧
    initialBoard.movePiece 6 4 4 4 = (true, (initialBoard.movePiece 6 4 4 4).2) ∧
    (initialBoard.movePiece 6 4 4 4).2.enPassantTarget = some (5, 4) := by
  refine ⟨by decide, by decide, ?_⟩
  rw [movePiece_enPassantTarget initialBoard 6 4 4 4 ⟨.pawn, .white, 6, 4, false⟩
    (initialBoard.movePiece 6 4 4 4).2 (by decide) (by decide)]
  decide

/-- The draw decision of `is_draw_by_insufficient_material` as a function
of the collected non-king piece list (the body of the source after the
collection loop). -/
def insufficientOf (pieces : List Piece) : Bool :=
  if pieces.length = 0 then true
  else if pieces.length = 1 then
    match pieces with
    | p :: _ => decide (p.kind = PieceKind.bishop ∨ p.kind = PieceKind.knight)
    | [] => false
  else
    match pieces with
    | [p, q] =>
      if p.kind = PieceKind.bishop ∧ q.kind = PieceKind.bishop then
        decide ((p.row + p.col) % 2 = (q.row + q.col) % 2)
      else false
    | _ => false

theorem isDrawByInsufficientMaterial_eq (b : Board) :
    b.isDrawByInsufficientMaterial = insufficientOf b.nonKingPieces := rfl

theorem insufficientOf_spec (l : List Piece) :
    insufficientOf l = true ↔
      l = [] ∨
      (∃ p, l = [p] ∧ (p.kind = PieceKind.bishop ∨ p.kind = PieceKind.knight)) ∨
      (∃ p q, l = [p, q] ∧ p.kind = PieceKind.bishop ∧
        q.kind = PieceKind.bishop ∧ (p.row + p.col) % 2 = (q.row + q.col) % 2) := by
  rcases l with _ | ⟨p, _ | ⟨q, _ | ⟨w, rest⟩⟩⟩
  · simp [insufficientOf]
  · simp [insufficientOf]
  · unfold insufficientOf
    simp only [List.length_cons, List.length_nil]
    norm_num
    constructor
    · rintro ⟨⟨h1, h2⟩, h3⟩
      exact Or.inr ⟨p, q, ⟨rfl, rfl⟩, h1, h2, h3⟩
    · rintro (h | ⟨p2, q2, ⟨e1, e2⟩, h1, h2, h3⟩)
      · exact absurd h (by simp)
      · subst e1
        subst e2
        exact ⟨⟨h1, h2⟩, h3⟩
  · unfold insufficientOf
    simp only [List.length_cons, List.length_nil]
    norm_num
    simp

/-- C9: `is_draw_by_insufficient_material` is true exactly for: no
non-king pieces; one non-king piece that is a bishop or knight; two
non-king pieces that are both bishops on same-parity squares. -/
theorem insufficientMaterial_characterization (b : Board) :
    b.isDrawByInsufficientMaterial = true ↔
      b.nonKingPieces = [] ∨
      (∃ p, b.nonKingPieces = [p] ∧ (p.kind = PieceKind.bishop ∨ p.kind = PieceKind.knight)) ∨
      (∃ p q, b.nonKingPieces = [p, q] ∧ p.kind = PieceKind.bishop ∧
        q.kind = PieceKind.bishop ∧ (p.row + p.col) % 2 = (q.row + q.col) % 2) := by
  rw [isDrawByInsufficientMaterial_eq]
  exact insufficientOf_spec b.nonKingPieces

/-- C10: `get_piece` returns `None` for any out-of-range coordinates and
the grid occupant for in-range coordinates. -/
theorem getPiece_boundary (b : Board) (r c : Int) :
    ((r < 0 ∨ 8 ≤ r ∨ c < 0 ∨ 8 ≤ c) → b.getPiece r c = none) ∧
    (0 ≤ r → r < 8 → 0 ≤ c → c < 8 → b.getPiece r c = b.atSq r c) := by
  constructor
  · intro h
    unfold Board.getPiece
    rw [if_neg (by omega)]
  · intro h1 h2 h3 h4
    unfold Board.getPiece
    rw [if_pos ⟨h1, h2, h3, h4⟩]

theorem getPiece_boundary_witness :
    initialBoard.getPiece (-1) 0 = none ∧
    initialBoard.getPiece 0 0 = initialBoard.atSq 0 0 :=
  ⟨(getPiece_boundary initialBoard (-1) 0).1 (by omega),
   (getPiece_boundary initialBoard 0 0).2 (by omega) (by omega) (by omega) (by omega)⟩


/-- En-passant fixture: white pawn on (3,4), black pawn on (3,3) having
just advanced two squares, en-passant target (2,3), kings on their home
squares. -/
def epFixture : Board where
  board :=
    [[none, none, none, none, some ⟨.king, .black, 0, 4, false⟩, none, none, none],
     emptyRank,
     emptyRank,
     [none, none, none, some ⟨.pawn, .black, 3, 3, true⟩, some ⟨.pawn, .white, 3, 4, true⟩,
      none, none, none],
     emptyRank,
     emptyRank,
     emptyRank,
     [none, none, none, none, some ⟨.king, .white, 7, 4, false⟩, none, none, none]]
  capturedWhite := []
  capturedBlack := []
  kingPosWhite := (7, 4)
  kingPosBlack := (0, 4)
  castleWK := true
  castleWQ := true
  castleBK := true
  castleBQ := true
  enPassantTarget := some (2, 3)
  halfmoveClock := 0
  fullmoveCounter := 3
  moveHistory := []

/-- C5: a pawn's one-column diagonal move onto an empty square equal to
the stored en-passant target (and not on a promotion rank — en-passant
targets set by the game are always on rows 2 and 5) is classified
`en_passant`; applying it removes the passed pawn at (start row,
destination column) — not the (empty) destination occupant — appends that
pawn to the mover's captured list, and moves the capturing pawn to the
destination. -/
theorem enPassant_capture_behavior (b : Board) (sr sc er ec : Int) (piece passed : Piece)
    (hWF : b.WF)
    (h : b.atSq sr sc = some piece)
    (hkind : piece.kind = PieceKind.pawn)
    (hdiag : (sc - ec).natAbs = 1)
    (hempty : b.atSq er ec = none)
    (htarget : b.enPassantTarget = some (er, ec))
    (hpassed : b.atSq sr ec = some passed)
    (hnopromo : ¬ ((piece.color = Color.white ∧ er = 0) ∨ (piece.color = Color.black ∧ er = 7)))
    (hrow : er ≠ sr)
    (hsr0 : 0 ≤ sr) (hsr8 : sr < 8) (her0 : 0 ≤ er) (her8 : er < 8)
    (hsc0 : 0 ≤ sc) (hsc8 : sc < 8) (hec0 : 0 ≤ ec) (hec8 : ec < 8) :
    b.getMoveType piece sr sc er ec = MoveType.enPassant ∧
    (b.movePiece sr sc er ec).2.atSq sr ec = none ∧
    (b.movePiece sr sc er ec).2.atSq er ec =
      some { piece with row := er, col := ec, hasMoved := true } ∧
    (b.movePiece sr sc er ec).2.captured piece.color =
      b.captured piece.color ++ [some passed] := by
  have hmt : b.getMoveType piece sr sc er ec = MoveType.enPassant := by
    unfold Board.getMoveType
    rw [if_pos hkind, if_neg hnopromo, if_pos ⟨hdiag, hempty, htarget⟩]
  obtain ⟨hsucc, hboard, hking, hcapSelf, hcapOther⟩ :=
    movePiece_result_enPassant b sr sc er ec piece h hmt
  have hne : ec ≠ sc := by omega
  have hWF1 : (b.setSq sr ec none).WF := setSq_WF b sr ec none hWF hsr0 hsr8
  have hWF2 : ((b.setSq sr ec none).setSq er ec
      (some { piece with row := er, col := ec, hasMoved := true })).WF :=
    setSq_WF _ er ec _ hWF1 her0 her8
  refine ⟨hmt, ?_, ?_, ?_⟩
  · rw [atSq_eq_of_board_eq hboard sr ec]
    rw [atSq_setSq _ hWF2 sr sc hsr0 hsr8 hsc0 hsc8]
    rw [if_neg (by rintro ⟨h1, h2⟩; exact hne h2)]
    rw [atSq_setSq _ hWF1 er ec her0 her8 hec0 hec8]
    rw [if_neg (by rintro ⟨h1, h2⟩; exact hrow h1.symm)]
    rw [atSq_setSq b hWF sr ec hsr0 hsr8 hec0 hec8]
    rw [if_pos ⟨rfl, rfl⟩]
  · rw [atSq_eq_of_board_eq hboard er ec]
    rw [atSq_setSq _ hWF2 sr sc hsr0 hsr8 hsc0 hsc8]
    rw [if_neg (by rintro ⟨h1, h2⟩; exact hrow h1)]
    rw [atSq_setSq _ hWF1 er ec her0 her8 hec0 hec8]
    rw [if_pos ⟨rfl, rfl⟩]
  · rw [hcapSelf, hpassed]

theorem enPassant_capture_behavior_witness :
    epFixture.getMoveType ⟨.pawn, .white, 3, 4, true⟩ 3 4 2 3 = MoveType.enPassant ∧
    (epFixture.movePiece 3 4 2 3).2.atSq 3 3 = none ∧
    (epFixture.movePiece 3 4 2 3).2.atSq 2 3 = some ⟨.pawn, .white, 2, 3, true⟩ ∧
    (epFixture.movePiece 3 4 2 3).2.captured Color.white =
      epFixture.captured Color.white ++ [some ⟨.pawn, .black, 3, 3, true⟩] := by
  exact enPassant_capture_behavior epFixture 3 4 2 3 ⟨.pawn, .white, 3, 4, true⟩
    ⟨.pawn, .black, 3, 3, true⟩ (by decide) (by decide) rfl (by decide) (by decide)
    (by decide) (by decide) (by decide) (by decide) (by decide) (by decide) (by decide)
    (by decide) (by decide) (by decide) (by decide) (by decide)

theorem mem_intRangeAsc {x a b : Int} : x ∈ intRangeAsc a b ↔ a ≤ x ∧ x < b := by
  unfold intRangeAsc
  rw [List.mem_map]
  constructor
  · rintro ⟨i, hi, hx⟩
    rw [List.mem_range] at hi
    subst hx
    simp only [Int.ofNat_eq_natCast]
    omega
  · rintro ⟨h1, h2⟩
    refine ⟨(x - a).toNat, ?_, ?_⟩
    · rw [List.mem_range]
      omega
    · simp only [Int.ofNat_eq_natCast]
      omega

theorem mem_intRangeDesc {x a b : Int} : x ∈ intRangeDesc a b ↔ b < x ∧ x ≤ a := by
  unfold intRangeDesc
  rw [List.mem_map]
  constructor
  · rintro ⟨i, hi, hx⟩
    rw [List.mem_range] at hi
    subst hx
    simp only [Int.ofNat_eq_natCast]
    omega
  · rintro ⟨h1, h2⟩
    refine ⟨(a - x).toNat, ?_, ?_⟩
    · rw [List.mem_range]
      omega
    · simp only [Int.ofNat_eq_natCast]
      omega

/-- Castling fixture: kings and rooks alone on their home squares, full
castling rights. -/
def castleFixture : Board where
  board :=
    [[some ⟨.rook, .black, 0, 0, false⟩, none, none, none, some ⟨.king, .black, 0, 4, false⟩,
      none, none, some ⟨.rook, .black, 0, 7, false⟩],
     emptyRank, emptyRank, emptyRank, emptyRank, emptyRank, emptyRank,
     [some ⟨.rook, .white, 7, 0, false⟩, none, none, none, some ⟨.king, .white, 7, 4, false⟩,
      none, none, some ⟨.rook, .white, 7, 7, false⟩]]
  capturedWhite := []
  capturedBlack := []
  kingPosWhite := (7, 4)
  kingPosBlack := (0, 4)
  castleWK := true
  castleWQ := true
  castleBK := true
  castleBQ := true
  enPassantTarget := none
  halfmoveClock := 0
  fullmoveCounter := 1
  moveHistory := []

/-- C7: the king's generated move set contains the castling destination
(start column ±2) only under the eligibility conditions (king unmoved,
not in check, right held, squares strictly between king and rook empty,
pass-through and landing squares not attacked); and applying a castling
move from the standard king square relocates the corresponding rook
(kingside 7→5, queenside 0→3) and marks it moved. -/
theorem castling_generation_and_application :
    (∀ (b : Board) (p : Piece), p.kind = PieceKind.king →
      (p.row, p.col + 2) ∈ p.potentialMoves b →
      p.hasMoved = false ∧ b.isInCheck p.color = false ∧ b.kingsideRight p.color = true ∧
      (∀ c, p.col + 1 ≤ c → c < 7 → b.getPiece p.row c = none) ∧
      b.isSquareUnderAttack p.row (p.col + 1) p.color = false ∧
      b.isSquareUnderAttack p.row (p.col + 2) p.color = false) ∧
    (∀ (b : Board) (p : Piece), p.kind = PieceKind.king →
      (p.row, p.col - 2) ∈ p.potentialMoves b →
      p.hasMoved = false ∧ b.isInCheck p.color = false ∧ b.queensideRight p.color = true ∧
      (∀ c, 0 < c → c ≤ p.col - 1 → b.getPiece p.row c = none) ∧
      b.isSquareUnderAttack p.row (p.col - 1) p.color = false ∧
      b.isSquareUnderAttack p.row (p.col - 2) p.color = false) ∧
    (∀ (b : Board) (sr : Int) (piece rk : Piece), b.WF → 0 ≤ sr → sr < 8 →
      b.atSq sr 4 = some piece → piece.kind = PieceKind.king →
      b.atSq sr 7 = some rk →
      (b.movePiece sr 4 sr 6).1 = true ∧
      (b.movePiece sr 4 sr 6).2.atSq sr 5 =
        some { rk with row := sr, col := 5, hasMoved := true } ∧
      (b.movePiece sr 4 sr 6).2.atSq sr 7 = none ∧
      (b.movePiece sr 4 sr 6).2.atSq sr 6 =
        some { piece with row := sr, col := 6, hasMoved := true } ∧
      (b.movePiece sr 4 sr 6).2.atSq sr 4 = none) ∧
    (∀ (b : Board) (sr : Int) (piece rk : Piece), b.WF → 0 ≤ sr → sr < 8 →
      b.atSq sr 4 = some piece → piece.kind = PieceKind.king →
      b.atSq sr 0 = some rk →
      (b.movePiece sr 4 sr 2).1 = true ∧
      (b.movePiece sr 4 sr 2).2.atSq sr 3 =
        some { rk with row := sr, col := 3, hasMoved := true } ∧
      (b.movePiece sr 4 sr 2).2.atSq sr 0 = none ∧
      (b.movePiece sr 4 sr 2).2.atSq sr 2 =
        some { piece with row := sr, col := 2, hasMoved := true } ∧
      (b.movePiece sr 4 sr 2).2.atSq sr 4 = none) := by
  refine ⟨?_, ?_, ?_, ?_⟩
  · intro b p hkind hm
    unfold Piece.potentialMoves at hm
    rw [hkind] at hm
    unfold kingPotentialMoves at hm
    rw [List.mem_append] at hm
    rcases hm with hm | hm
    · exfalso
      rw [List.mem_filterMap] at hm
      obtain ⟨dd, hdd, hf⟩ := hm
      fin_cases hdd <;>
        (dsimp only at hf
         split at hf <;>
           [(rcases hq : b.getPiece (p.row + _) (p.col + _) with _ | q <;>
               rw [hq] at hf <;> dsimp only at hf;
             · injection hf with hf2
               rw [Prod.mk.injEq] at hf2
               omega
             · split at hf <;>
                 [(injection hf with hf2; rw [Prod.mk.injEq] at hf2; omega); cases hf]);
            cases hf])
    · split at hm
      case isFalse => cases hm
      case isTrue hcond =>
        rw [List.mem_append] at hm
        rcases hm with hm | hm
        · split at hm
          case isFalse => cases hm
          case isTrue hcastle =>
            obtain ⟨hright, hempty, hattack⟩ := hcastle
            refine ⟨hcond.1, hcond.2, hright, ?_, ?_, ?_⟩
            · intro c hc1 hc2
              rw [List.all_eq_true] at hempty
              have := hempty c (mem_intRangeAsc.mpr ⟨hc1, hc2⟩)
              rw [Option.isNone_iff_eq_none] at this
              exact this
            · rw [List.all_eq_true] at hattack
              have := hattack (p.col + 1) (by simp)
              rw [Bool.not_eq_true'] at this
              exact this
            · rw [List.all_eq_true] at hattack
              have := hattack (p.col + 2) (by simp)
              rw [Bool.not_eq_true'] at this
              exact this
        · exfalso
          split at hm
          case isFalse => cases hm
          case isTrue =>
            rw [List.mem_singleton, Prod.mk.injEq] at hm
            omega
  · intro b p hkind hm
    unfold Piece.potentialMoves at hm
    rw [hkind] at hm
    unfold kingPotentialMoves at hm
    rw [List.mem_append] at hm
    rcases hm with hm | hm
    · exfalso
      rw [List.mem_filterMap] at hm
      obtain ⟨dd, hdd, hf⟩ := hm
      fin_cases hdd <;>
        (dsimp only at hf
         split at hf <;>
           [(rcases hq : b.getPiece (p.row + _) (p.col + _) with _ | q <;>
               rw [hq] at hf <;> dsimp only at hf;
             · injection hf with hf2
               rw [Prod.mk.injEq] at hf2
               omega
             · split at hf <;>
                 [(injection hf with hf2; rw [Prod.mk.injEq] at hf2; omega); cases hf]);
            cases hf])
    · split at hm
      case isFalse => cases hm
      case isTrue hcond =>
        rw [List.mem_append] at hm
        rcases hm with hm | hm
        · exfalso
          split at hm
          case isFalse => cases hm
          case isTrue =>
            rw [List.mem_singleton, Prod.mk.injEq] at hm
            omega
        · split at hm
          case isFalse => cases hm
          case isTrue hcastle =>
            obtain ⟨hright, hempty, hattack⟩ := hcastle
            refine ⟨hcond.1, hcond.2, hright, ?_, ?_, ?_⟩
            · intro c hc1 hc2
              rw [List.all_eq_true] at hempty
              have := hempty c (mem_intRangeDesc.mpr ⟨hc1, hc2⟩)
              rw [Option.isNone_iff_eq_none] at this
              exact this
            · rw [List.all_eq_true] at hattack
              have := hattack (p.col - 1) (by simp)
              rw [Bool.not_eq_true'] at this
              exact this
            · rw [List.all_eq_true] at hattack
              have := hattack (p.col - 2) (by simp)
              rw [Bool.not_eq_true'] at this
              exact this
  · intro b sr piece rk hWF hsr0 hsr8 h hkind hrk
    have hmt : b.getMoveType piece sr 4 sr 6 = MoveType.castlingKingside := by
      unfold Board.getMoveType
      rw [if_neg (by rw [hkind]; intro hx; cases hx), if_pos hkind, if_pos (by omega)]
    obtain ⟨hsucc, hboard, hkp1, hkp2⟩ :=
      movePiece_result_castleK b sr 4 sr 6 piece rk h hmt hrk
    have hWF1 : (b.setSq sr 5 (some { rk with row := sr, col := 5, hasMoved := true })).WF :=
      setSq_WF _ _ _ _ hWF hsr0 hsr8
    have hWF2 : ((b.setSq sr 5 (some { rk with row := sr, col := 5, hasMoved := true })).setSq
        sr 7 none).WF := setSq_WF _ _ _ _ hWF1 hsr0 hsr8
    have hWF3 : (((b.setSq sr 5 (some { rk with row := sr, col := 5, hasMoved := true })).setSq
        sr 7 none).setSq sr 6
        (some { piece with row := sr, col := 6, hasMoved := true })).WF :=
      setSq_WF _ _ _ _ hWF2 hsr0 hsr8
    refine ⟨hsucc, ?_, ?_, ?_, ?_⟩
    · rw [atSq_eq_of_board_eq hboard]
      rw [atSq_setSq _ hWF3 sr 4 hsr0 hsr8 (by omega) (by omega)]
      rw [if_neg (by rintro ⟨h1, h2⟩; omega)]
      rw [atSq_setSq _ hWF2 sr 6 hsr0 hsr8 (by omega) (by omega)]
      rw [if_neg (by rintro ⟨h1, h2⟩; omega)]
      rw [atSq_setSq _ hWF1 sr 7 hsr0 hsr8 (by omega) (by omega)]
      rw [if_neg (by rintro ⟨h1, h2⟩; omega)]
      rw [atSq_setSq _ hWF sr 5 hsr0 hsr8 (by omega) (by omega)]
      rw [if_pos ⟨rfl, rfl⟩]
    · rw [atSq_eq_of_board_eq hboard]
      rw [atSq_setSq _ hWF3 sr 4 hsr0 hsr8 (by omega) (by omega)]
      rw [if_neg (by rintro ⟨h1, h2⟩; omega)]
      rw [atSq_setSq _ hWF2 sr 6 hsr0 hsr8 (by omega) (by omega)]
      rw [if_neg (by rintro ⟨h1, h2⟩; omega)]
      rw [atSq_setSq _ hWF1 sr 7 hsr0 hsr8 (by omega) (by omega)]
      rw [if_pos ⟨rfl, rfl⟩]
    · rw [atSq_eq_of_board_eq hboard]
      rw [atSq_setSq _ hWF3 sr 4 hsr0 hsr8 (by omega) (by omega)]
      rw [if_neg (by rintro ⟨h1, h2⟩; omega)]
      rw [atSq_setSq _ hWF2 sr 6 hsr0 hsr8 (by omega) (by omega)]
      rw [if_pos ⟨rfl, rfl⟩]
    · rw [atSq_eq_of_board_eq hboard]
      rw [atSq_setSq _ hWF3 sr 4 hsr0 hsr8 (by omega) (by omega)]
      rw [if_pos ⟨rfl, rfl⟩]
  · intro b sr piece rk hWF hsr0 hsr8 h hkind hrk
    have hmt : b.getMoveType piece sr 4 sr 2 = MoveType.castlingQueenside := by
      unfold Board.getMoveType
      rw [if_neg (by rw [hkind]; intro hx; cases hx), if_pos hkind,
        if_neg (by omega), if_pos (by omega)]
    obtain ⟨hsucc, hboard, hkp1, hkp2⟩ :=
      movePiece_result_castleQ b sr 4 sr 2 piece rk h hmt hrk
    have hWF1 : (b.setSq sr 3 (some { rk with row := sr, col := 3, hasMoved := true })).WF :=
      setSq_WF _ _ _ _ hWF hsr0 hsr8
    have hWF2 : ((b.setSq sr 3 (some { rk with row := sr, col := 3, hasMoved := true })).setSq
        sr 0 none).WF := setSq_WF _ _ _ _ hWF1 hsr0 hsr8
    have hWF3 : (((b.setSq sr 3 (some { rk with row := sr, col := 3, hasMoved := true })).setSq
        sr 0 none).setSq sr 2
        (some { piece with row := sr, col := 2, hasMoved := true })).WF :=
      setSq_WF _ _ _ _ hWF2 hsr0 hsr8
    refine ⟨hsucc, ?_, ?_, ?_, ?_⟩
    · rw [atSq_eq_of_board_eq hboard]
      rw [atSq_setSq _ hWF3 sr 4 hsr0 hsr8 (by omega) (by omega)]
      rw [if_neg (by rintro ⟨h1, h2⟩; omega)]
      rw [atSq_setSq _ hWF2 sr 2 hsr0 hsr8 (by omega) (by omega)]
      rw [if_neg (by rintro ⟨h1, h2⟩; omega)]
      rw [atSq_setSq _ hWF1 sr 0 hsr0 hsr8 (by omega) (by omega)]
      rw [if_neg (by rintro ⟨h1, h2⟩; omega)]
      rw [atSq_setSq _ hWF sr 3 hsr0 hsr8 (by omega) (by omega)]
      rw [if_pos ⟨rfl, rfl⟩]
    · rw [atSq_eq_of_board_eq hboard]
      rw [atSq_setSq _ hWF3 sr 4 hsr0 hsr8 (by omega) (by omega)]
      rw [if_neg (by rintro ⟨h1, h2⟩; omega)]
      rw [atSq_setSq _ hWF2 sr 2 hsr0 hsr8 (by omega) (by omega)]
      rw [if_neg (by rintro ⟨h1, h2⟩; omega)]
      rw [atSq_setSq _ hWF1 sr 0 hsr0 hsr8 (by omega) (by omega)]
      rw [if_pos ⟨rfl, rfl⟩]
    · rw [atSq_eq_of_board_eq hboard]
      rw [atSq_setSq _ hWF3 sr 4 hsr0 hsr8 (by omega) (by omega)]
      rw [if_neg (by rintro ⟨h1, h2⟩; omega)]
      rw [atSq_setSq _ hWF2 sr 2 hsr0 hsr8 (by omega) (by omega)]
      rw [if_pos ⟨rfl, rfl⟩]
    · rw [atSq_eq_of_board_eq hboard]
      rw [atSq_setSq _ hWF3 sr 4 hsr0 hsr8 (by omega) (by omega)]
      rw [if_pos ⟨rfl, rfl⟩]

theorem castling_generation_and_application_witness :
    (castleFixture.atSq 7 4 = some ⟨.king, .white, 7, 4, false⟩ ∧
     (((7 : Int), (6 : Int)) ∈ Piece.potentialMoves ⟨.king, .white, 7, 4, false⟩ castleFixture) ∧
     castleFixture.kingsideRight Color.white = true ∧
     castleFixture.getPiece 7 5 = none ∧ castleFixture.getPiece 7 6 = none) ∧
    ((castleFixture.movePiece 7 4 7 6).2.atSq 7 5 =
      some ⟨.rook, .white, 7, 5, true⟩ ∧
     (castleFixture.movePiece 7 4 7 6).2.atSq 7 7 = none) ∧
    ((castleFixture.movePiece 7 4 7 2).2.atSq 7 3 =
      some ⟨.rook, .white, 7, 3, true⟩ ∧
     (castleFixture.movePiece 7 4 7 2).2.atSq 7 0 = none) := by
  have hA := (castling_generation_and_application.1 castleFixture
    ⟨.king, .white, 7, 4, false⟩ rfl (by decide))
  have hK := (castling_generation_and_application.2.2.1 castleFixture 7
    ⟨.king, .white, 7, 4, false⟩ ⟨.rook, .white, 7, 7, false⟩ (by decide) (by decide)
    (by decide) (by decide) rfl (by decide))
  have hQ := (castling_generation_and_application.2.2.2 castleFixture 7
    ⟨.king, .white, 7, 4, false⟩ ⟨.rook, .white, 7, 0, false⟩ (by decide) (by decide)
    (by decide) (by decide) rfl (by decide))
  refine ⟨⟨by decide, by decide, hA.2.2.1, ?_, ?_⟩, ⟨?_, hK.2.2.1⟩, ⟨?_, hQ.2.2.1⟩⟩
  · exact hA.2.2.2.1 5 (by decide) (by decide)
  · exact hA.2.2.2.1 6 (by decide) (by decide)
  · exact hK.2.1
  · exact hQ.2.1

/-! ### The king-square cache invariant (C8) -/

/-- No king stands on square `(r, c)` of `b`. -/
def noKingAt (b : Board) (r c : Int) : Bool :=
  match b.atSq r c with
  | some p => decide (p.kind ≠ PieceKind.king)
  | none => true

theorem noKingAt_spec {b : Board} {r c : Int} (h : noKingAt b r c = true) :
    ∀ q, b.atSq r c = some q → q.kind ≠ PieceKind.king := by
  intro q hq
  unfold noKingAt at h
  rw [hq] at h
  exact of_decide_eq_true h

/-- The cache invariant for one color: the cached square holds a king of
that color, and every king of that color on the grid stands on the cached
square. -/
def kingCacheOK (b : Board) (d : Color) : Prop :=
  (∃ kp, b.atSq (b.kingPos d).1 (b.kingPos d).2 = some kp ∧
    kp.kind = PieceKind.king ∧ kp.color = d) ∧
  (∀ r k p, b.atSq r k = some p → p.kind = PieceKind.king → p.color = d →
    (r, k) = b.kingPos d)

theorem kingCacheOK_of_bool (b : Board) (hWF : b.WF) (d : Color)
    (h1 : (match b.atSq (b.kingPos d).1 (b.kingPos d).2 with
           | some p => decide (p.kind = PieceKind.king ∧ p.color = d)
           | none => false) = true)
    (h2 : allSquares.all (fun s =>
        match b.atSq s.1 s.2 with
        | some p =>
          if p.kind = PieceKind.king ∧ p.color = d then decide (s = b.kingPos d) else true
        | none => true) = true) :
    kingCacheOK b d := by
  constructor
  · rcases hq : b.atSq (b.kingPos d).1 (b.kingPos d).2 with _ | kp
    · rw [hq] at h1
      cases h1
    · rw [hq] at h1
      have := of_decide_eq_true h1
      exact ⟨kp, rfl, this.1, this.2⟩
  · intro r k p hp hpK hpC
    have hb := atSq_some_bounds hWF hp
    have hmem : (r, k) ∈ allSquares := mem_allSquares.mpr hb
    rw [List.all_eq_true] at h2
    have := h2 (r, k) hmem
    dsimp only at this
    simp only [hp] at this
    rw [if_pos ⟨hpK, hpC⟩] at this
    exact of_decide_eq_true this

theorem color_eq_or_other (c d : Color) : d = c ∨ d = c.other := by
  cases c <;> cases d <;> simp [Color.other]

theorem color_other_ne (c : Color) : c.other ≠ c := by
  cases c <;> simp [Color.other]

/-- Transfer of the cache invariant across one grid rewrite of the
`move_piece` kind: start square cleared, destination overwritten with
`mval`, a few auxiliary squares overwritten with non-king contents, the
rest untouched. -/
theorem kingCacheOK_step (b b' : Board) (d : Color) (piece : Piece) (mval : Option Piece)
    (sr sc er ec : Int) (extras : List (Int × Int)) (extraVal : Int × Int → Option Piece)
    (hsrsc : b.atSq sr sc = some piece)
    (hat : ∀ r k, b'.atSq r k =
      if (r, k) = (sr, sc) then none
      else if (r, k) = (er, ec) then mval
      else if (r, k) ∈ extras then extraVal (r, k)
      else b.atSq r k)
    (hkp : b'.kingPos d =
      if piece.kind = PieceKind.king ∧ piece.color = d then (er, ec) else b.kingPos d)
    (hne : ¬ ((sr, sc) = (er, ec)))
    (hdest : ∀ q, b.atSq er ec = some q → q.kind ≠ PieceKind.king)
    (hmvalKing : ∀ q, mval = some q → q.kind = PieceKind.king →
      piece.kind = PieceKind.king ∧ q.color = piece.color)
    (hmvalExists : piece.kind = PieceKind.king →
      mval = some { piece with row := er, col := ec, hasMoved := true })
    (hextrasOld : ∀ s ∈ extras, ∀ q, b.atSq s.1 s.2 = some q → q.kind ≠ PieceKind.king)
    (hextrasNew : ∀ s ∈ extras, ∀ q, extraVal s = some q → q.kind ≠ PieceKind.king)
    (hold : kingCacheOK b d) :
    kingCacheOK b' d := by
  obtain ⟨⟨kp, hkpAt, hkpKind, hkpColor⟩, huniq⟩ := hold
  by_cases hM : piece.kind = PieceKind.king ∧ piece.color = d
  · have hsk : (sr, sc) = b.kingPos d := huniq sr sc piece hsrsc hM.1 hM.2
    constructor
    · refine ⟨{ piece with row := er, col := ec, hasMoved := true }, ?_, hM.1, hM.2⟩
      rw [hkp, if_pos hM]
      show b'.atSq er ec = _
      rw [hat er ec]
      rw [if_neg (fun hx => hne hx.symm), if_pos rfl]
      exact (hmvalExists hM.1).symm ▸ rfl
    · intro r k p hp hpK hpC
      rw [hkp, if_pos hM]
      rw [hat r k] at hp
      by_cases h1 : (r, k) = (sr, sc)
      · rw [if_pos h1] at hp
        cases hp
      · rw [if_neg h1] at hp
        by_cases h2 : (r, k) = (er, ec)
        · exact h2
        · rw [if_neg h2] at hp
          by_cases h3 : (r, k) ∈ extras
          · rw [if_pos h3] at hp
            exact absurd hpK (hextrasNew _ h3 p hp)
          · rw [if_neg h3] at hp
            have hloc := huniq r k p hp hpK hpC
            rw [← hsk] at hloc
            exact absurd hloc h1
  · have hkp' : b'.kingPos d = b.kingPos d := by rw [hkp, if_neg hM]
    rcases hkpd : b.kingPos d with ⟨cr, ck⟩
    rw [hkpd] at hkpAt
    dsimp only at hkpAt
    have hcne1 : ¬ ((cr, ck) = (sr, sc)) := by
      intro hx
      injection hx with hx1 hx2
      subst hx1
      subst hx2
      rw [hsrsc] at hkpAt
      injection hkpAt with he
      subst he
      exact hM ⟨hkpKind, hkpColor⟩
    have hcne2 : ¬ ((cr, ck) = (er, ec)) := by
      intro hx
      injection hx with hx1 hx2
      subst hx1
      subst hx2
      exact hdest kp hkpAt hkpKind
    have hcne3 : (cr, ck) ∉ extras := by
      intro hx
      exact hextrasOld _ hx kp hkpAt hkpKind
    constructor
    · refine ⟨kp, ?_, hkpKind, hkpColor⟩
      rw [hkp', hkpd]
      show b'.atSq cr ck = some kp
      rw [hat cr ck, if_neg hcne1, if_neg hcne2, if_neg hcne3]
      exact hkpAt
    · intro r k p hp hpK hpC
      rw [hkp', hkpd]
      rw [hat r k] at hp
      by_cases h1 : (r, k) = (sr, sc)
      · rw [if_pos h1] at hp
        cases hp
      · rw [if_neg h1] at hp
        by_cases h2 : (r, k) = (er, ec)
        · rw [if_pos h2] at hp
          obtain ⟨hq1, hq2⟩ := hmvalKing p hp hpK
          exact absurd ⟨hq1, hq2.symm.trans hpC⟩ hM
        · rw [if_neg h2] at hp
          by_cases h3 : (r, k) ∈ extras
          · rw [if_pos h3] at hp
            exact absurd hpK (hextrasNew _ h3 p hp)
          · rw [if_neg h3] at hp
            have := huniq r k p hp hpK hpC
            rw [hkpd] at this
            exact this

/-- C8: the per-color king-square cache equals the actual grid square of
that color's king: it holds in the initial position and is preserved by
every successful `move_piece` (castling included) that does not capture
or overwrite a king — which no move generated by `get_valid_moves` from a
reachable position does. -/
theorem kingCache_invariant :
    (kingCacheOK initialBoard Color.white ∧ kingCacheOK initialBoard Color.black) ∧
    (∀ (b : Board) (sr sc er ec : Int) (piece : Piece) (b' : Board), b.WF →
      0 ≤ sr → sr < 8 → 0 ≤ sc → sc < 8 → 0 ≤ er → er < 8 → 0 ≤ ec → ec < 8 →
      b.atSq sr sc = some piece →
      b.movePiece sr sc er ec = (true, b') →
      ¬ ((sr, sc) = (er, ec)) →
      noKingAt b er ec = true →
      (b.getMoveType piece sr sc er ec = MoveType.enPassant → noKingAt b sr ec = true) →
      (b.getMoveType piece sr sc er ec = MoveType.castlingKingside →
        noKingAt b sr 5 = true ∧ noKingAt b sr 7 = true) →
      (b.getMoveType piece sr sc er ec = MoveType.castlingQueenside →
        noKingAt b sr 3 = true ∧ noKingAt b sr 0 = true) →
      kingCacheOK b Color.white → kingCacheOK b Color.black →
      kingCacheOK b' Color.white ∧ kingCacheOK b' Color.black) := by
  constructor
  · exact ⟨kingCacheOK_of_bool initialBoard (by decide) Color.white (by decide) (by decide),
      kingCacheOK_of_bool initialBoard (by decide) Color.black (by decide) (by decide)⟩
  · intro b sr sc er ec piece b' hWF hsr0 hsr8 hsc0 hsc8 her0 her8 hec0 hec8 h hres hne
      hdk hdkEP hdkCK hdkCQ hW hB
    have hb'2 : (b.movePiece sr sc er ec).2 = b' := by rw [hres]
    have hdest := noKingAt_spec hdk
    rcases hmt : b.getMoveType piece sr sc er ec with _ | _ | _ | _ | _
    · -- regular move
      obtain ⟨hsucc, hboard, hkpAll⟩ := movePiece_result_regular b sr sc er ec piece h hmt
      have hWF1 : (b.setSq er ec
          (some { piece with row := er, col := ec, hasMoved := true })).WF :=
        setSq_WF _ _ _ _ hWF her0 her8
      have hat : ∀ r k, b'.atSq r k =
          if (r, k) = (sr, sc) then none
          else if (r, k) = (er, ec) then
            some { piece with row := er, col := ec, hasMoved := true }
          else if (r, k) ∈ ([] : List (Int × Int)) then none
          else b.atSq r k := by
        intro r k
        rw [← hb'2, atSq_eq_of_board_eq hboard]
        rw [atSq_setSq _ hWF1 sr sc hsr0 hsr8 hsc0 hsc8]
        rw [atSq_setSq _ hWF er ec her0 her8 hec0 hec8]
        simp only [Prod.mk.injEq, List.not_mem_nil, if_false]
      have hkp : ∀ d, b'.kingPos d =
          if piece.kind = PieceKind.king ∧ piece.color = d then (er, ec) else b.kingPos d := by
        intro d
        rw [← hb'2]
        exact hkpAll d
      have hmvK : ∀ q, some { piece with row := er, col := ec, hasMoved := true } = some q →
          q.kind = PieceKind.king → piece.kind = PieceKind.king ∧ q.color = piece.color := by
        intro q hq hk
        cases hq
        exact ⟨hk, rfl⟩
      constructor
      · exact kingCacheOK_step b b' Color.white piece _ sr sc er ec [] (fun _ => none)
          h hat (hkp _) hne hdest hmvK (fun _ => rfl)
          (fun s hs => absurd hs (List.not_mem_nil _))
          (fun s hs => absurd hs (List.not_mem_nil _)) hW
      · exact kingCacheOK_step b b' Color.black piece _ sr sc er ec [] (fun _ => none)
          h hat (hkp _) hne hdest hmvK (fun _ => rfl)
          (fun s hs => absurd hs (List.not_mem_nil _))
          (fun s hs => absurd hs (List.not_mem_nil _)) hB
    · -- promotion
      have hkind := getMoveType_promotion_kind hmt
      obtain ⟨hsucc, hboard, hkpAll⟩ := movePiece_result_promotion b sr sc er ec piece h hmt
      have hWF1 : (b.setSq er ec
          (some { piece with row := er, col := ec, hasMoved := true })).WF :=
        setSq_WF _ _ _ _ hWF her0 her8
      have hWF2 : ((b.setSq er ec
          (some { piece with row := er, col := ec, hasMoved := true })).setSq sr sc none).WF :=
        setSq_WF _ _ _ _ hWF1 hsr0 hsr8
      have hat : ∀ r k, b'.atSq r k =
          if (r, k) = (sr, sc) then none
          else if (r, k) = (er, ec) then
            some (⟨PieceKind.queen, piece.color, er, ec, false⟩ : Piece)
          else if (r, k) ∈ ([] : List (Int × Int)) then none
          else b.atSq r k := by
        intro r k
        rw [← hb'2, atSq_eq_of_board_eq hboard]
        rw [atSq_setSq _ hWF2 er ec her0 her8 hec0 hec8]
        rw [atSq_setSq _ hWF1 sr sc hsr0 hsr8 hsc0 hsc8]
        rw [atSq_setSq _ hWF er ec her0 her8 hec0 hec8]
        simp only [Prod.mk.injEq, List.not_mem_nil, if_false]
        by_cases h1 : r = er ∧ k = ec
        · have h2 : ¬ (r = sr ∧ k = sc) := by
            rintro ⟨a1, a2⟩
            apply hne
            rw [Prod.mk.injEq]
            constructor <;> omega
          rw [if_pos h1, if_neg h2, if_pos h1]
        · rw [if_neg h1]
          by_cases h2 : r = sr ∧ k = sc
          · rw [if_pos h2, if_pos h2]
          · simp only [if_neg h1, if_neg h2]
      have hkp : ∀ d, b'.kingPos d =
          if piece.kind = PieceKind.king ∧ piece.color = d then (er, ec) else b.kingPos d := by
        intro d
        rw [← hb'2, hkpAll d]
        rw [if_neg (by rw [hkind]; rintro ⟨hx, _⟩; cases hx)]
      have hmvK : ∀ q, some (⟨PieceKind.queen, piece.color, er, ec, false⟩ : Piece) = some q →
          q.kind = PieceKind.king → piece.kind = PieceKind.king ∧ q.color = piece.color := by
        intro q hq hk
        cases hq
        cases hk
      have hmvE : piece.kind = PieceKind.king →
          some (⟨PieceKind.queen, piece.color, er, ec, false⟩ : Piece) =
            some { piece with row := er, col := ec, hasMoved := true } := by
        intro hx
        rw [hkind] at hx
        cases hx
      constructor
      · exact kingCacheOK_step b b' Color.white piece _ sr sc er ec [] (fun _ => none)
          h hat (hkp _) hne hdest hmvK hmvE
          (fun s hs => absurd hs (List.not_mem_nil _))
          (fun s hs => absurd hs (List.not_mem_nil _)) hW
      · exact kingCacheOK_step b b' Color.black piece _ sr sc er ec [] (fun _ => none)
          h hat (hkp _) hne hdest hmvK hmvE
          (fun s hs => absurd hs (List.not_mem_nil _))
          (fun s hs => absurd hs (List.not_mem_nil _)) hB
    · -- en passant
      have hkind := getMoveType_enPassant_kind hmt
      obtain ⟨hsucc, hboard, hkpAll, hcap1, hcap2⟩ :=
        movePiece_result_enPassant b sr sc er ec piece h hmt
      have hWF1 : (b.setSq sr ec none).WF := setSq_WF _ _ _ _ hWF hsr0 hsr8
      have hWF2 : ((b.setSq sr ec none).setSq er ec
          (some { piece with row := er, col := ec, hasMoved := true })).WF :=
        setSq_WF _ _ _ _ hWF1 her0 her8
      have hEP := hdkEP hmt
      have hat : ∀ r k, b'.atSq r k =
          if (r, k) = (sr, sc) then none
          else if (r, k) = (er, ec) then
            some { piece with row := er, col := ec, hasMoved := true }
          else if (r, k) ∈ [((sr : Int), (ec : Int))] then none
          else b.atSq r k := by
        intro r k
        rw [← hb'2, atSq_eq_of_board_eq hboard]
        rw [atSq_setSq _ hWF2 sr sc hsr0 hsr8 hsc0 hsc8]
        rw [atSq_setSq _ hWF1 er ec her0 her8 hec0 hec8]
        rw [atSq_setSq _ hWF sr ec hsr0 hsr8 hec0 hec8]
        simp only [Prod.mk.injEq, List.mem_cons, List.not_mem_nil, or_false]
      have hkp : ∀ d, b'.kingPos d =
          if piece.kind = PieceKind.king ∧ piece.color = d then (er, ec) else b.kingPos d := by
        intro d
        rw [← hb'2, hkpAll d]
        rw [if_neg (by rw [hkind]; rintro ⟨hx, _⟩; cases hx)]
      have hmvK : ∀ q, some { piece with row := er, col := ec, hasMoved := true } = some q →
          q.kind = PieceKind.king → piece.kind = PieceKind.king ∧ q.color = piece.color := by
        intro q hq hk
        cases hq
        exact ⟨hk, rfl⟩
      have hexOld : ∀ s ∈ [((sr : Int), (ec : Int))], ∀ q, b.atSq s.1 s.2 = some q →
          q.kind ≠ PieceKind.king := by
        intro s hs q hq
        rw [List.mem_singleton] at hs
        subst hs
        exact noKingAt_spec hEP q hq
      have hexNew : ∀ s ∈ [((sr : Int), (ec : Int))], ∀ q,
          (fun _ => (none : Option Piece)) s = some q → q.kind ≠ PieceKind.king := by
        intro s hs q hq
        cases hq
      constructor
      · exact kingCacheOK_step b b' Color.white piece _ sr sc er ec [(sr, ec)] (fun _ => none)
          h hat (hkp _) hne hdest hmvK (fun _ => rfl) hexOld hexNew hW
      · exact kingCacheOK_step b b' Color.black piece _ sr sc er ec [(sr, ec)] (fun _ => none)
          h hat (hkp _) hne hdest hmvK (fun _ => rfl) hexOld hexNew hB
    · -- kingside castling
      obtain ⟨hkind, hecsc⟩ := getMoveType_castleK_kind hmt
      obtain ⟨hk5, hk7⟩ := hdkCK hmt
      have hmvK : ∀ q, some { piece with row := er, col := ec, hasMoved := true } = some q →
          q.kind = PieceKind.king → piece.kind = PieceKind.king ∧ q.color = piece.color := by
        intro q hq hk
        cases hq
        exact ⟨hk, rfl⟩
      have hexOld : ∀ s ∈ [((sr : Int), (5 : Int)), ((sr : Int), (7 : Int))], ∀ q,
          b.atSq s.1 s.2 = some q → q.kind ≠ PieceKind.king := by
        intro s hs q hq
        rw [List.mem_cons, List.mem_singleton] at hs
        rcases hs with hs | hs
        · subst hs
          exact noKingAt_spec hk5 q hq
        · subst hs
          exact noKingAt_spec hk7 q hq
      rcases hrk : b.atSq sr 7 with _ | rk
      · obtain ⟨hsucc, hboard, hkp1, hkp2⟩ :=
          movePiece_result_castleK_noRook b sr sc er ec piece h hmt hrk
        have hWF1 : (b.setSq sr 5 none).WF := setSq_WF _ _ _ _ hWF hsr0 hsr8
        have hWF2 : ((b.setSq sr 5 none).setSq sr 7 none).WF :=
          setSq_WF _ _ _ _ hWF1 hsr0 hsr8
        have hWF3 : (((b.setSq sr 5 none).setSq sr 7 none).setSq er ec
            (some { piece with row := er, col := ec, hasMoved := true })).WF :=
          setSq_WF _ _ _ _ hWF2 her0 her8
        have hat : ∀ r k, b'.atSq r k =
            if (r, k) = (sr, sc) then none
            else if (r, k) = (er, ec) then
              some { piece with row := er, col := ec, hasMoved := true }
            else if (r, k) ∈ [((sr : Int), (5 : Int)), ((sr : Int), (7 : Int))] then none
            else b.atSq r k := by
          intro r k
          rw [← hb'2, atSq_eq_of_board_eq hboard]
          rw [atSq_setSq _ hWF3 sr sc hsr0 hsr8 hsc0 hsc8]
          rw [atSq_setSq _ hWF2 er ec her0 her8 hec0 hec8]
          rw [atSq_setSq _ hWF1 sr 7 hsr0 hsr8 (by omega) (by omega)]
          rw [atSq_setSq _ hWF sr 5 hsr0 hsr8 (by omega) (by omega)]
          simp only [Prod.mk.injEq, List.mem_cons, List.not_mem_nil, or_false]
          by_cases h1 : r = sr ∧ k = sc
          · rw [if_pos h1, if_pos h1]
          · rw [if_neg h1, if_neg h1]
            by_cases h2 : r = er ∧ k = ec
            · rw [if_pos h2, if_pos h2]
            · rw [if_neg h2, if_neg h2]
              by_cases h3 : r = sr ∧ k = 7
              · rw [if_pos h3, if_pos (Or.inr h3)]
              · rw [if_neg h3]
                by_cases h4 : r = sr ∧ k = 5
                · rw [if_pos h4, if_pos (Or.inl h4)]
                · rw [if_neg h4, if_neg (fun hx => hx.elim h4 h3)]
        have hkp : ∀ d, b'.kingPos d =
            if piece.kind = PieceKind.king ∧ piece.color = d then (er, ec)
            else b.kingPos d := by
          intro d
          rcases color_eq_or_other piece.color d with hd | hd
          · subst hd
            rw [if_pos ⟨hkind, rfl⟩, ← hb'2]
            exact hkp1
          · subst hd
            rw [if_neg (by rintro ⟨_, hx⟩; exact color_other_ne piece.color hx.symm),
              ← hb'2]
            exact hkp2
        have hexNew : ∀ s ∈ [((sr : Int), (5 : Int)), ((sr : Int), (7 : Int))], ∀ q,
            (fun _ => (none : Option Piece)) s = some q → q.kind ≠ PieceKind.king := by
          intro s hs q hq
          cases hq
        constructor
        · exact kingCacheOK_step b b' Color.white piece _ sr sc er ec
            [(sr, 5), (sr, 7)] (fun _ => none)
            h hat (hkp _) hne hdest hmvK (fun _ => rfl) hexOld hexNew hW
        · exact kingCacheOK_step b b' Color.black piece _ sr sc er ec
            [(sr, 5), (sr, 7)] (fun _ => none)
            h hat (hkp _) hne hdest hmvK (fun _ => rfl) hexOld hexNew hB
      · obtain ⟨hsucc, hboard, hkp1, hkp2⟩ :=
          movePiece_result_castleK b sr sc er ec piece rk h hmt hrk
        have hrkK : rk.kind ≠ PieceKind.king := noKingAt_spec hk7 rk hrk
        have hWF1 : (b.setSq sr 5
            (some { rk with row := sr, col := 5, hasMoved := true })).WF :=
          setSq_WF _ _ _ _ hWF hsr0 hsr8
        have hWF2 : ((b.setSq sr 5
            (some { rk with row := sr, col := 5, hasMoved := true })).setSq sr 7 none).WF :=
          setSq_WF _ _ _ _ hWF1 hsr0 hsr8
        have hWF3 : (((b.setSq sr 5
            (some { rk with row := sr, col := 5, hasMoved := true })).setSq sr 7
            none).setSq er ec
            (some { piece with row := er, col := ec, hasMoved := true })).WF :=
          setSq_WF _ _ _ _ hWF2 her0 her8
        have hat : ∀ r k, b'.atSq r k =
            if (r, k) = (sr, sc) then none
            else if (r, k) = (er, ec) then
              some { piece with row := er, col := ec, hasMoved := true }
            else if (r, k) ∈ [((sr : Int), (5 : Int)), ((sr : Int), (7 : Int))] then
              (if (r, k) = ((sr : Int), (5 : Int)) then
                some { rk with row := sr, col := 5, hasMoved := true } else none)
            else b.atSq r k := by
          intro r k
          rw [← hb'2, atSq_eq_of_board_eq hboard]
          rw [atSq_setSq _ hWF3 sr sc hsr0 hsr8 hsc0 hsc8]
          rw [atSq_setSq _ hWF2 er ec her0 her8 hec0 hec8]
          rw [atSq_setSq _ hWF1 sr 7 hsr0 hsr8 (by omega) (by omega)]
          rw [atSq_setSq _ hWF sr 5 hsr0 hsr8 (by omega) (by omega)]
          simp only [Prod.mk.injEq, List.mem_cons, List.not_mem_nil, or_false]
          by_cases h1 : r = sr ∧ k = sc
          · rw [if_pos h1, if_pos h1]
          · rw [if_neg h1, if_neg h1]
            by_cases h2 : r = er ∧ k = ec
            · rw [if_pos h2, if_pos h2]
            · rw [if_neg h2, if_neg h2]
              by_cases h3 : r = sr ∧ k = 7
              · rw [if_pos h3, if_pos (Or.inr h3)]
                rw [if_neg (by rintro ⟨hx1, hx2⟩; omega)]
              · rw [if_neg h3]
                by_cases h4 : r = sr ∧ k = 5
                · rw [if_pos h4, if_pos (Or.inl h4), if_pos h4]
                · rw [if_neg h4, if_neg (fun hx => hx.elim h4 h3)]
        have hkp : ∀ d, b'.kingPos d =
            if piece.kind = PieceKind.king ∧ piece.color = d then (er, ec)
            else b.kingPos d := by
          intro d
          rcases color_eq_or_other piece.color d with hd | hd
          · subst hd
            rw [if_pos ⟨hkind, rfl⟩, ← hb'2]
            exact hkp1
          · subst hd
            rw [if_neg (by rintro ⟨_, hx⟩; exact color_other_ne piece.color hx.symm),
              ← hb'2]
            exact hkp2
        have hexNew : ∀ s ∈ [((sr : Int), (5 : Int)), ((sr : Int), (7 : Int))], ∀ q,
            (fun s => if s = ((sr : Int), (5 : Int)) then
              some { rk with row := sr, col := 5, hasMoved := true } else none) s = some q →
            q.kind ≠ PieceKind.king := by
          intro s hs q hq
          dsimp only at hq
          split at hq
          · injection hq with he
            subst he
            exact hrkK
          · cases hq
        constructor
        · exact kingCacheOK_step b b' Color.white piece _ sr sc er ec
            [(sr, 5), (sr, 7)]
            (fun s => if s = ((sr : Int), (5 : Int)) then
              some { rk with row := sr, col := 5, hasMoved := true } else none)
            h hat (hkp _) hne hdest hmvK (fun _ => rfl) hexOld hexNew hW
        · exact kingCacheOK_step b b' Color.black piece _ sr sc er ec
            [(sr, 5), (sr, 7)]
            (fun s => if s = ((sr : Int), (5 : Int)) then
              some { rk with row := sr, col := 5, hasMoved := true } else none)
            h hat (hkp _) hne hdest hmvK (fun _ => rfl) hexOld hexNew hB
    · -- queenside castling
      obtain ⟨hkind, hecsc⟩ := getMoveType_castleQ_kind hmt
      obtain ⟨hk3, hk0⟩ := hdkCQ hmt
      have hmvK : ∀ q, some { piece with row := er, col := ec, hasMoved := true } = some q →
          q.kind = PieceKind.king → piece.kind = PieceKind.king ∧ q.color = piece.color := by
        intro q hq hk
        cases hq
        exact ⟨hk, rfl⟩
      have hexOld : ∀ s ∈ [((sr : Int), (3 : Int)), ((sr : Int), (0 : Int))], ∀ q,
          b.atSq s.1 s.2 = some q → q.kind ≠ PieceKind.king := by
        intro s hs q hq
        rw [List.mem_cons, List.mem_singleton] at hs
        rcases hs with hs | hs
        · subst hs
          exact noKingAt_spec hk3 q hq
        · subst hs
          exact noKingAt_spec hk0 q hq
      rcases hrk : b.atSq sr 0 with _ | rk
      · obtain ⟨hsucc, hboard, hkp1, hkp2⟩ :=
          movePiece_result_castleQ_noRook b sr sc er ec piece h hmt hrk
        have hWF1 : (b.setSq sr 3 none).WF := setSq_WF _ _ _ _ hWF hsr0 hsr8
        have hWF2 : ((b.setSq sr 3 none).setSq sr 0 none).WF :=
          setSq_WF _ _ _ _ hWF1 hsr0 hsr8
        have hWF3 : (((b.setSq sr 3 none).setSq sr 0 none).setSq er ec
            (some { piece with row := er, col := ec, hasMoved := true })).WF :=
          setSq_WF _ _ _ _ hWF2 her0 her8
        have hat : ∀ r k, b'.atSq r k =
            if (r, k) = (sr, sc) then none
            else if (r, k) = (er, ec) then
              some { piece with row := er, col := ec, hasMoved := true }
            else if (r, k) ∈ [((sr : Int), (3 : Int)), ((sr : Int), (0 : Int))] then none
            else b.atSq r k := by
          intro r k
          rw [← hb'2, atSq_eq_of_board_eq hboard]
          rw [atSq_setSq _ hWF3 sr sc hsr0 hsr8 hsc0 hsc8]
          rw [atSq_setSq _ hWF2 er ec her0 her8 hec0 hec8]
          rw [atSq_setSq _ hWF1 sr 0 hsr0 hsr8 (by omega) (by omega)]
          rw [atSq_setSq _ hWF sr 3 hsr0 hsr8 (by omega) (by omega)]
          simp only [Prod.mk.injEq, List.mem_cons, List.not_mem_nil, or_false]
          by_cases h1 : r = sr ∧ k = sc
          · rw [if_pos h1, if_pos h1]
          · rw [if_neg h1, if_neg h1]
            by_cases h2 : r = er ∧ k = ec
            · rw [if_pos h2, if_pos h2]
            · rw [if_neg h2, if_neg h2]
              by_cases h3 : r = sr ∧ k = 0
              · rw [if_pos h3, if_pos (Or.inr h3)]
              · rw [if_neg h3]
                by_cases h4 : r = sr ∧ k = 3
                · rw [if_pos h4, if_pos (Or.inl h4)]
                · rw [if_neg h4, if_neg (fun hx => hx.elim h4 h3)]
        have hkp : ∀ d, b'.kingPos d =
            if piece.kind = PieceKind.king ∧ piece.color = d then (er, ec)
            else b.kingPos d := by
          intro d
          rcases color_eq_or_other piece.color d with hd | hd
          · subst hd
            rw [if_pos ⟨hkind, rfl⟩, ← hb'2]
            exact hkp1
          · subst hd
            rw [if_neg (by rintro ⟨_, hx⟩; exact color_other_ne piece.color hx.symm),
              ← hb'2]
            exact hkp2
        have hexNew : ∀ s ∈ [((sr : Int), (3 : Int)), ((sr : Int), (0 : Int))], ∀ q,
            (fun _ => (none : Option Piece)) s = some q → q.kind ≠ PieceKind.king := by
          intro s hs q hq
          cases hq
        constructor
        · exact kingCacheOK_step b b' Color.white piece _ sr sc er ec
            [(sr, 3), (sr, 0)] (fun _ => none)
            h hat (hkp _) hne hdest hmvK (fun _ => rfl) hexOld hexNew hW
        · exact kingCacheOK_step b b' Color.black piece _ sr sc er ec
            [(sr, 3), (sr, 0)] (fun _ => none)
            h hat (hkp _) hne hdest hmvK (fun _ => rfl) hexOld hexNew hB
      · obtain ⟨hsucc, hboard, hkp1, hkp2⟩ :=
          movePiece_result_castleQ b sr sc er ec piece rk h hmt hrk
        have hrkK : rk.kind ≠ PieceKind.king := noKingAt_spec hk0 rk hrk
        have hWF1 : (b.setSq sr 3
            (some { rk with row := sr, col := 3, hasMoved := true })).WF :=
          setSq_WF _ _ _ _ hWF hsr0 hsr8
        have hWF2 : ((b.setSq sr 3
            (some { rk with row := sr, col := 3, hasMoved := true })).setSq sr 0 none).WF :=
          setSq_WF _ _ _ _ hWF1 hsr0 hsr8
        have hWF3 : (((b.setSq sr 3
            (some { rk with row := sr, col := 3, hasMoved := true })).setSq sr 0
            none).setSq er ec
            (some { piece with row := er, col := ec, hasMoved := true })).WF :=
          setSq_WF _ _ _ _ hWF2 her0 her8
        have hat : ∀ r k, b'.atSq r k =
            if (r, k) = (sr, sc) then none
            else if (r, k) = (er, ec) then
              some { piece with row := er, col := ec, hasMoved := true }
            else if (r, k) ∈ [((sr : Int), (3 : Int)), ((sr : Int), (0 : Int))] then
              (if (r, k) = ((sr : Int), (3 : Int)) then
                some { rk with row := sr, col := 3, hasMoved := true } else none)
            else b.atSq r k := by
          intro r k
          rw [← hb'2, atSq_eq_of_board_eq hboard]
          rw [atSq_setSq _ hWF3 sr sc hsr0 hsr8 hsc0 hsc8]
          rw [atSq_setSq _ hWF2 er ec her0 her8 hec0 hec8]
          rw [atSq_setSq _ hWF1 sr 0 hsr0 hsr8 (by omega) (by omega)]
          rw [atSq_setSq _ hWF sr 3 hsr0 hsr8 (by omega) (by omega)]
          simp only [Prod.mk.injEq, List.mem_cons, List.not_mem_nil, or_false]
          by_cases h1 : r = sr ∧ k = sc
          · rw [if_pos h1, if_pos h1]
          · rw [if_neg h1, if_neg h1]
            by_cases h2 : r = er ∧ k = ec
            · rw [if_pos h2, if_pos h2]
            · rw [if_neg h2, if_neg h2]
              by_cases h3 : r = sr ∧ k = 0
              · rw [if_pos h3, if_pos (Or.inr h3)]
                rw [if_neg (by rintro ⟨hx1, hx2⟩; omega)]
              · rw [if_neg h3]
                by_cases h4 : r = sr ∧ k = 3
                · rw [if_pos h4, if_pos (Or.inl h4), if_pos h4]
                · rw [if_neg h4, if_neg (fun hx => hx.elim h4 h3)]
        have hkp : ∀ d, b'.kingPos d =
            if piece.kind = PieceKind.king ∧ piece.color = d then (er, ec)
            else b.kingPos d := by
          intro d
          rcases color_eq_or_other piece.color d with hd | hd
          · subst hd
            rw [if_pos ⟨hkind, rfl⟩, ← hb'2]
            exact hkp1
          · subst hd
            rw [if_neg (by rintro ⟨_, hx⟩; exact color_other_ne piece.color hx.symm),
              ← hb'2]
            exact hkp2
        have hexNew : ∀ s ∈ [((sr : Int), (3 : Int)), ((sr : Int), (0 : Int))], ∀ q,
            (fun s => if s = ((sr : Int), (3 : Int)) then
              some { rk with row := sr, col := 3, hasMoved := true } else none) s = some q →
            q.kind ≠ PieceKind.king := by
          intro s hs q hq
          dsimp only at hq
          split at hq
          · injection hq with he
            subst he
            exact hrkK
          · cases hq
        constructor
        · exact kingCacheOK_step b b' Color.white piece _ sr sc er ec
            [(sr, 3), (sr, 0)]
            (fun s => if s = ((sr : Int), (3 : Int)) then
              some { rk with row := sr, col := 3, hasMoved := true } else none)
            h hat (hkp _) hne hdest hmvK (fun _ => rfl) hexOld hexNew hW
        · exact kingCacheOK_step b b' Color.black piece _ sr sc er ec
            [(sr, 3), (sr, 0)]
            (fun s => if s = ((sr : Int), (3 : Int)) then
              some { rk with row := sr, col := 3, hasMoved := true } else none)
            h hat (hkp _) hne hdest hmvK (fun _ => rfl) hexOld hexNew hB

theorem kingCache_invariant_witness :
    kingCacheOK (initialBoard.movePiece 6 4 4 4).2 Color.white ∧
    kingCacheOK (initialBoard.movePiece 6 4 4 4).2 Color.black :=
  kingCache_invariant.2 initialBoard 6 4 4 4 ⟨.pawn, .white, 6, 4, false⟩
    (initialBoard.movePiece 6 4 4 4).2 (by decide) (by decide) (by decide) (by decide)
    (by decide) (by decide) (by decide) (by decide) (by decide) (by decide) (by decide)
    (by decide) (by decide) (by decide) (by decide) (by decide)
    (kingCacheOK_of_bool initialBoard (by decide) Color.white (by decide) (by decide))
    (kingCacheOK_of_bool initialBoard (by decide) Color.black (by decide) (by decide))

/-! ### Rejected requests perform no mutation (C4) -/

theorem rayMoves_valid (b : Board) (color : Color) :
    ∀ (n : Nat) (r c dr dc : Int) (m : Int × Int), m ∈ rayMoves b color n r c dr dc →
      isValidPosition m.1 m.2 = true := by
  intro n
  induction n with
  | zero => intro r c dr dc m hm; cases hm
  | succ n ih =>
    intro r c dr dc m hm
    unfold rayMoves at hm
    dsimp only at hm
    split at hm
    case isTrue hvalid =>
      rcases hq : b.getPiece (r + dr) (c + dc) with _ | q
      · rw [hq] at hm
        rcases List.mem_cons.mp hm with hm | hm
        · subst hm
          exact hvalid
        · exact ih _ _ _ _ _ hm
      · rw [hq] at hm
        dsimp only at hm
        split at hm
        · rw [List.mem_singleton] at hm
          subst hm
          exact hvalid
        · cases hm
    case isFalse => cases hm

theorem slidingMoves_valid (p : Piece) (b : Board) (dirs : List (Int × Int)) :
    ∀ m ∈ slidingMoves p b dirs, isValidPosition m.1 m.2 = true := by
  intro m hm
  unfold slidingMoves at hm
  rw [List.mem_flatMap] at hm
  obtain ⟨dd, _, hm⟩ := hm
  exact rayMoves_valid b p.color 7 p.row p.col dd.1 dd.2 m hm

theorem pawnPotentialMoves_valid (p : Piece) (b : Board) :
    ∀ m ∈ pawnPotentialMoves p b, isValidPosition m.1 m.2 = true := by
  intro m hm
  unfold pawnPotentialMoves at hm
  rw [List.mem_append] at hm
  rcases hm with hm | hm
  · split at hm
    case isTrue hv =>
      rcases List.mem_cons.mp hm with hm | hm
      · subst hm
        exact hv.1
      · split at hm
        case isTrue hv2 =>
          rw [List.mem_singleton] at hm
          subst hm
          exact hv2.2.1
        case isFalse => cases hm
    case isFalse => cases hm
  · rw [List.mem_flatMap] at hm
    obtain ⟨off, _, hm⟩ := hm
    dsimp only at hm
    split at hm
    case isTrue hv =>
      rw [List.mem_append] at hm
      rcases hm with hm | hm
      · split at hm
        · split at hm
          · rw [List.mem_singleton] at hm
            subst hm
            exact hv
          · cases hm
        · cases hm
      · split at hm
        · rw [List.mem_singleton] at hm
          subst hm
          exact hv
        · cases hm
    case isFalse => cases hm

theorem knightPotentialMoves_valid (p : Piece) (b : Board) :
    ∀ m ∈ knightPotentialMoves p b, isValidPosition m.1 m.2 = true := by
  intro m hm
  unfold knightPotentialMoves at hm
  rw [List.mem_filterMap] at hm
  obtain ⟨dd, _, hf⟩ := hm
  dsimp only at hf
  split at hf
  case isTrue hv =>
    split at hf
    · injection hf with he
      subst he
      exact hv
    · split at hf
      · injection hf with he
        subst he
        exact hv
      · cases hf
  case isFalse => cases hf

/-- Pseudo-legal destinations of every non-king piece are on the board
(every generator guards with `is_valid_position`; only the king's castling
candidates are appended without such a guard). -/
theorem potentialMoves_valid_of_not_king (p : Piece) (b : Board)
    (hk : p.kind ≠ PieceKind.king) :
    ∀ m ∈ p.potentialMoves b, isValidPosition m.1 m.2 = true := by
  intro m hm
  unfold Piece.potentialMoves at hm
  rcases hkind : p.kind with _ | _ | _ | _ | _ | _ <;> rw [hkind] at hm
  · exact pawnPotentialMoves_valid p b m hm
  · exact slidingMoves_valid p b rookDirections m hm
  · exact knightPotentialMoves_valid p b m hm
  · exact slidingMoves_valid p b bishopDirections m hm
  · exact slidingMoves_valid p b queenDirections m hm
  · exact absurd hkind hk

/-- C4: an invalid request — out-of-range start square, no piece at the
start square, a destination that is not among the piece's legal moves, or
(for a non-king piece, whose generated moves all lie on the board) an
out-of-range destination — makes `make_move` return `False` and leave the
whole board state unchanged. -/
theorem makeMove_invalid_rejected (b : Board) (t : Color) (sr sc er ec : Int) :
    (¬ (0 ≤ sr ∧ sr < 8 ∧ 0 ≤ sc ∧ sc < 8) → makeMove b t (sr, sc) (er, ec) = (false, b)) ∧
    (b.getPiece sr sc = none → makeMove b t (sr, sc) (er, ec) = (false, b)) ∧
    ((er, ec) ∉ b.getValidMoves sr sc → makeMove b t (sr, sc) (er, ec) = (false, b)) ∧
    (¬ (0 ≤ er ∧ er < 8 ∧ 0 ≤ ec ∧ ec < 8) →
      (∀ p, b.atSq sr sc = some p → p.kind ≠ PieceKind.king) →
      makeMove b t (sr, sc) (er, ec) = (false, b)) := by
  have hreject : (er, ec) ∉ b.getValidMoves sr sc →
      makeMove b t (sr, sc) (er, ec) = (false, b) := by
    intro hmem
    unfold makeMove
    dsimp only
    rcases hp : b.getPiece sr sc with _ | p
    · rfl
    · dsimp only
      by_cases hcol : p.color ≠ t
      · rw [if_pos hcol]
      · rw [if_neg hcol, if_neg hmem]
  refine ⟨?_, ?_, hreject, ?_⟩
  · intro hrange
    unfold makeMove
    have hp : b.getPiece sr sc = none := by
      unfold Board.getPiece
      rw [if_neg (by omega)]
    rw [hp]
  · intro hp
    unfold makeMove
    rw [hp]
  · intro hrange hnk
    apply hreject
    intro hmem
    unfold Board.getValidMoves at hmem
    rcases hq : b.atSq sr sc with _ | q
    · rw [hq] at hmem
      cases hmem
    · rw [hq] at hmem
      rw [List.mem_filter] at hmem
      have hval := potentialMoves_valid_of_not_king q b (hnk q hq) _ hmem.1
      unfold isValidPosition at hval
      rw [decide_eq_true_eq] at hval
      omega

theorem makeMove_invalid_rejected_witness :
    makeMove initialBoard Color.white (9, 0) (5, 0) = (false, initialBoard) ∧
    makeMove initialBoard Color.white (4, 4) (5, 4) = (false, initialBoard) ∧
    makeMove initialBoard Color.white (6, 4) (3, 4) = (false, initialBoard) ∧
    makeMove initialBoard Color.white (6, 4) (6, 9) = (false, initialBoard) :=
  ⟨(makeMove_invalid_rejected initialBoard Color.white 9 0 5 0).1 (by omega),
   (makeMove_invalid_rejected initialBoard Color.white 4 4 5 4).2.1 (by decide),
   (makeMove_invalid_rejected initialBoard Color.white 6 4 3 4).2.2.1 (by decide),
   (makeMove_invalid_rejected initialBoard Color.white 6 4 6 9).2.2.2 (by omega)
     (by decide)⟩

/-! ### The search driver `ChessAI.get_move` (C2)

The body of `get_move` is modelled with three parameters abstracting the
parts whose values cannot influence the claim: `sc` stands for the
`_minimax` score of the position reached by one root candidate (the
numeric evaluation lives in tables of the repository's `constants.py`,
which is not among the provided sources — the claim is proved for every
integer-valued score function); `stop` stands for the wall-clock test
`time.time() - start_time > self.time_limit`, consulted in candidate
order (proved for every oracle); `order` stands for `_order_moves`,
assumed only to yield exactly the same (piece, move) pairs as its input,
which the regrouping in `_order_moves` guarantees. -/

/-- `ChessAI._get_all_valid_moves`: the dict of nonempty legal-move lists
per own piece, in row-major insertion order. -/
def getAllValidMoves (b : Board) (color : Color) :
    List ((Int × Int) × List (Int × Int)) :=
  allSquares.filterMap (fun s =>
    match b.getPiece s.1 s.2 with
    | some p =>
      if p.color = color then
        (let vm := b.getValidMoves s.1 s.2
         if vm.isEmpty then none else some ((s.1, s.2), vm))
      else none
    | none => none)

/-- All (piece position, destination) pairs of a valid-move dict. -/
def movePairs (vm : List ((Int × Int) × List (Int × Int))) :
    List ((Int × Int) × (Int × Int)) :=
  vm.flatMap (fun e => e.2.map (fun m => (e.1, m)))

/-- Python dict lookup `valid_moves[key]` on the association list. -/
def lookupMoves (vm : List ((Int × Int) × List (Int × Int))) (key : Int × Int) :
    Option (List (Int × Int)) :=
  vm.findSome? (fun e => if e.1 = key then some e.2 else none)

/-- `ChessAI._get_quick_opening_move`: advance a central pawn two squares
if possible, else develop a knight toward a central square, else take the
head of the ordered move list, else the first available move. -/
def quickOpeningMove (color : Color)
    (order : List ((Int × Int) × List (Int × Int)) → List ((Int × Int) × List (Int × Int)))
    (vm : List ((Int × Int) × List (Int × Int))) : Option ((Int × Int) × (Int × Int)) :=
  let pawnRow : Int := if color = Color.white then 6 else 1
  let tryPawn := ([3, 4] : List Int).findSome? (fun c =>
    match lookupMoves vm (pawnRow, c) with
    | some moves =>
      let fwd : Int × Int :=
        if color = Color.white then (pawnRow - 2, c) else (pawnRow + 2, c)
      if fwd ∈ moves then some ((pawnRow, c), fwd) else none
    | none => none)
  match tryPawn with
  | some mv => some mv
  | none =>
    let knightRow : Int := if color = Color.white then 7 else 0
    let goodRow : Int := if color = Color.white then 5 else 2
    let tryKnight := ([1, 6] : List Int).findSome? (fun c =>
      match lookupMoves vm (knightRow, c) with
      | some moves =>
        (moves.find? (fun t => decide (t.1 = goodRow ∧ (t.2 = 2 ∨ t.2 = 5)))).map
          (fun t => ((knightRow, c), t))
      | none => none)
    match tryKnight with
    | some mv => some mv
    | none =>
      match order vm with
      | (pos, m :: _) :: _ => some (pos, m)
      | _ =>
        vm.findSome? (fun e =>
          match e.2 with
          | m :: _ => some (e.1, m)
          | [] => none)

/-- Comparison `score > best_score` of `get_move`, with `None` standing
for the initial `-inf`. -/
def takesBetter (sc : (Int × Int) → (Int × Int) → Int) (pos m : Int × Int) :
    Option (((Int × Int) × (Int × Int)) × Int) → Bool
  | none => true
  | some (_, bs) => decide (bs < sc pos m)

/-- The inner candidate loop of `get_move`: evaluate each destination of
one piece, keep the running best, return immediately on the easy-level
winning shortcut (`difficulty <= 2 and score > 5000`), break on the time
oracle once a best move exists. -/
def innerLoop (difficulty : Nat) (sc : (Int × Int) → (Int × Int) → Int)
    (stop : Nat → Bool) (pos : Int × Int) :
    List (Int × Int) → Nat → Option (((Int × Int) × (Int × Int)) × Int) →
      Option (((Int × Int) × (Int × Int)) × Int) × Nat × Bool
  | [], k, best => (best, k, false)
  | m :: ms, k, best =>
    let takes := takesBetter sc pos m best
    let best' := if takes = true then some ((pos, m), sc pos m) else best
    if takes = true ∧ difficulty ≤ 2 ∧ 5000 < sc pos m then (best', k + 1, true)
    else if stop k = true ∧ best'.isSome = true then (best', k + 1, false)
    else innerLoop difficulty sc stop pos ms (k + 1) best'

/-- The outer piece loop of `get_move`: run the inner loop per piece,
propagate an immediate return, break on the time oracle once a best move
exists. -/
def outerLoop (difficulty : Nat) (sc : (Int × Int) → (Int × Int) → Int)
    (stop : Nat → Bool) :
    List ((Int × Int) × List (Int × Int)) → Nat →
      Option (((Int × Int) × (Int × Int)) × Int) →
      Option (((Int × Int) × (Int × Int)) × Int)
  | [], _, best => best
  | e :: rest, k, best =>
    match innerLoop difficulty sc stop e.1 e.2 k best with
    | (best', _, true) => best'
    | (best', k', false) =>
      if stop k' = true ∧ best'.isSome = true then best'
      else outerLoop difficulty sc stop rest (k' + 1) best'

/-- `ChessAI.get_move`: `None` when no piece has a legal move; the single
move when only one exists; the fixed opening heuristic at difficulty 1 in
the first plies; otherwise the best root candidate of the (abstracted)
minimax loop. -/
def getMove (color : Color) (difficulty : Nat) (b : Board)
    (sc : (Int × Int) → (Int × Int) → Int) (stop : Nat → Bool)
    (order : List ((Int × Int) × List (Int × Int)) → List ((Int × Int) × List (Int × Int))) :
    Option ((Int × Int) × (Int × Int)) :=
  let vm := getAllValidMoves b color
  if vm.isEmpty then none
  else
    let total := (vm.map (fun e => e.2.length)).sum
    if total = 1 then
      match vm with
      | (pos, m :: _) :: _ => some (pos, m)
      | _ => none
    else if difficulty = 1 ∧ b.fullmoveCounter ≤ 3 then
      quickOpeningMove color order vm
    else
      (outerLoop difficulty sc stop (order vm) 0 none).map (fun e => e.1)

/-! ### Properties of the search driver -/

theorem mem_getAllValidMoves {b : Board} {color : Color}
    {e : (Int × Int) × List (Int × Int)} (he : e ∈ getAllValidMoves b color) :
    (∃ p, b.getPiece e.1.1 e.1.2 = some p ∧ p.color = color) ∧
    e.2 = b.getValidMoves e.1.1 e.1.2 ∧ e.2 ≠ [] := by
  unfold getAllValidMoves at he
  rw [List.mem_filterMap] at he
  obtain ⟨s, hs, hf⟩ := he
  rcases hp : b.getPiece s.1 s.2 with _ | p
  · rw [hp] at hf
    cases hf
  · rw [hp] at hf
    dsimp only at hf
    split at hf
    case isTrue hcol =>
      split at hf
      case isTrue => cases hf
      case isFalse hnem =>
        injection hf with he2
        subst he2
        refine ⟨⟨p, hp, hcol⟩, rfl, ?_⟩
        intro hnil
        exact hnem (List.isEmpty_iff.mpr hnil)
    case isFalse => cases hf

theorem mem_movePairs {vm : List ((Int × Int) × List (Int × Int))}
    {pm : (Int × Int) × (Int × Int)} :
    pm ∈ movePairs vm ↔ ∃ ms, (pm.1, ms) ∈ vm ∧ pm.2 ∈ ms := by
  unfold movePairs
  rw [List.mem_flatMap]
  constructor
  · rintro ⟨e, he, hm⟩
    rw [List.mem_map] at hm
    obtain ⟨m, hm2, hme⟩ := hm
    subst hme
    exact ⟨e.2, he, hm2⟩
  · rintro ⟨ms, hmem, hm⟩
    exact ⟨(pm.1, ms), hmem, List.mem_map.mpr ⟨pm.2, hm, rfl⟩⟩

theorem movePairs_getAllValidMoves {b : Board} {color : Color}
    {pm : (Int × Int) × (Int × Int)} (h : pm ∈ movePairs (getAllValidMoves b color)) :
    pm.2 ∈ b.getValidMoves pm.1.1 pm.1.2 ∧
    ∃ p, b.getPiece pm.1.1 pm.1.2 = some p ∧ p.color = color := by
  rw [mem_movePairs] at h
  obtain ⟨ms, hmem, hm⟩ := h
  obtain ⟨hp, hms, _⟩ := mem_getAllValidMoves hmem
  exact ⟨hms ▸ hm, hp⟩

theorem movePairs_exists_of_ne_nil {b : Board} {color : Color}
    (h : getAllValidMoves b color ≠ []) :
    ∃ pm, pm ∈ movePairs (getAllValidMoves b color) := by
  rcases hvm : getAllValidMoves b color with _ | ⟨e, rest⟩
  · exact absurd hvm h
  · have hmem : e ∈ getAllValidMoves b color := by
      rw [hvm]
      exact List.mem_cons_self e rest
    obtain ⟨_, _, hne⟩ := mem_getAllValidMoves hmem
    rcases he2 : e.2 with _ | ⟨m, ms⟩
    · exact absurd he2 hne
    · refine ⟨(e.1, m), mem_movePairs.mpr ⟨e.2, List.mem_cons_self e rest, ?_⟩⟩
      rw [he2]
      exact List.mem_cons_self m ms

theorem lookupMoves_some {vm : List ((Int × Int) × List (Int × Int))} {key : Int × Int}
    {moves : List (Int × Int)} (h : lookupMoves vm key = some moves) :
    (key, moves) ∈ vm := by
  unfold lookupMoves at h
  obtain ⟨e, he, hf⟩ := List.exists_of_findSome?_eq_some h
  split at hf
  case isTrue hk =>
    injection hf with he2
    subst he2
    subst hk
    exact he
  case isFalse => cases hf

theorem innerLoop_best (difficulty : Nat) (sc : (Int × Int) → (Int × Int) → Int)
    (stop : Nat → Bool) (pos : Int × Int) :
    ∀ (ms : List (Int × Int)) (k : Nat) (best : Option (((Int × Int) × (Int × Int)) × Int)),
      (innerLoop difficulty sc stop pos ms k best).1 = best ∨
        ∃ m ∈ ms, (innerLoop difficulty sc stop pos ms k best).1 =
          some ((pos, m), sc pos m) := by
  intro ms
  induction ms with
  | nil =>
    intro k best
    exact Or.inl rfl
  | cons m ms ih =>
    intro k best
    unfold innerLoop
    dsimp only
    generalize hb2 : (if takesBetter sc pos m best = true
        then some ((pos, m), sc pos m) else best) = b2
    have hbest' : b2 = best ∨ b2 = some ((pos, m), sc pos m) := by
      rw [← hb2]
      split
      · exact Or.inr rfl
      · exact Or.inl rfl
    split
    · rcases hbest' with hb | hb
      · exact Or.inl hb
      · exact Or.inr ⟨m, List.mem_cons_self m ms, hb⟩
    · split
      · rcases hbest' with hb | hb
        · exact Or.inl hb
        · exact Or.inr ⟨m, List.mem_cons_self m ms, hb⟩
      · rcases ih (k + 1) b2 with hr | ⟨m2, hm2, hr⟩
        · rw [hr]
          rcases hbest' with hb | hb
          · exact Or.inl hb
          · exact Or.inr ⟨m, List.mem_cons_self m ms, hb⟩
        · exact Or.inr ⟨m2, List.mem_cons_of_mem m hm2, hr⟩

theorem innerLoop_isSome (difficulty : Nat) (sc : (Int × Int) → (Int × Int) → Int)
    (stop : Nat → Bool) (pos : Int × Int) :
    ∀ (ms : List (Int × Int)) (k : Nat) (best : Option (((Int × Int) × (Int × Int)) × Int)),
      best.isSome = true → ((innerLoop difficulty sc stop pos ms k best).1).isSome = true := by
  intro ms
  induction ms with
  | nil =>
    intro k best hb
    exact hb
  | cons m ms ih =>
    intro k best hb
    unfold innerLoop
    dsimp only
    generalize hb2 : (if takesBetter sc pos m best = true
        then some ((pos, m), sc pos m) else best) = b2
    have hbs : b2.isSome = true := by
      rw [← hb2]
      split
      · rfl
      · exact hb
    split
    · exact hbs
    · split
      · exact hbs
      · exact ih (k + 1) b2 hbs

theorem innerLoop_startSome (difficulty : Nat) (sc : (Int × Int) → (Int × Int) → Int)
    (stop : Nat → Bool) (pos : Int × Int) (m : Int × Int) (ms : List (Int × Int)) (k : Nat) :
    ((innerLoop difficulty sc stop pos (m :: ms) k none).1).isSome = true := by
  unfold innerLoop
  dsimp only
  generalize hb2 : (if takesBetter sc pos m none = true
      then some ((pos, m), sc pos m) else none) = b2
  have hbs : b2.isSome = true := by
    rw [← hb2]
    rfl
  split
  · exact hbs
  · split
    · exact hbs
    · exact innerLoop_isSome difficulty sc stop pos ms (k + 1) b2 hbs

theorem movePairs_cons (e : (Int × Int) × List (Int × Int))
    (rest : List ((Int × Int) × List (Int × Int))) :
    movePairs (e :: rest) = e.2.map (fun m => (e.1, m)) ++ movePairs rest := rfl

theorem outerLoop_mem (difficulty : Nat) (sc : (Int × Int) → (Int × Int) → Int)
    (stop : Nat → Bool) :
    ∀ (l : List ((Int × Int) × List (Int × Int))) (k : Nat)
      (best : Option (((Int × Int) × (Int × Int)) × Int))
      (cand : ((Int × Int) × (Int × Int)) × Int),
      outerLoop difficulty sc stop l k best = some cand →
      best = some cand ∨ cand.1 ∈ movePairs l := by
  intro l
  induction l with
  | nil =>
    intro k best cand h
    exact Or.inl h
  | cons e rest ih =>
    intro k best cand h
    unfold outerLoop at h
    rcases hin : innerLoop difficulty sc stop e.1 e.2 k best with ⟨best', kk⟩
    rcases kk with ⟨k', flag⟩
    rw [hin] at h
    have hinner := innerLoop_best difficulty sc stop e.1 e.2 k best
    rw [hin] at hinner
    dsimp only at hinner
    have hbcase : best' = some cand → best = some cand ∨ cand.1 ∈ movePairs (e :: rest) := by
      intro hb
      rcases hinner with h1 | ⟨m, hm, h1⟩
      · exact Or.inl (h1 ▸ hb)
      · right
        rw [h1] at hb
        injection hb with he2
        rw [movePairs_cons, List.mem_append]
        left
        rw [← he2]
        exact List.mem_map.mpr ⟨m, hm, rfl⟩
    cases flag
    · dsimp only at h
      split at h
      · exact hbcase h
      · rcases ih (k' + 1) best' cand h with h1 | h1
        · exact hbcase h1
        · right
          rw [movePairs_cons, List.mem_append]
          exact Or.inr h1
    · exact hbcase h

theorem outerLoop_isSome (difficulty : Nat) (sc : (Int × Int) → (Int × Int) → Int)
    (stop : Nat → Bool) :
    ∀ (l : List ((Int × Int) × List (Int × Int))) (k : Nat)
      (best : Option (((Int × Int) × (Int × Int)) × Int)),
      best.isSome = true → (outerLoop difficulty sc stop l k best).isSome = true := by
  intro l
  induction l with
  | nil =>
    intro k best hb
    exact hb
  | cons e rest ih =>
    intro k best hb
    unfold outerLoop
    rcases hin : innerLoop difficulty sc stop e.1 e.2 k best with ⟨best', kk⟩
    rcases kk with ⟨k', flag⟩
    have hbs : best'.isSome = true := by
      have := innerLoop_isSome difficulty sc stop e.1 e.2 k best hb
      rw [hin] at this
      exact this
    cases flag
    · dsimp only
      split
      · exact hbs
      · exact ih (k' + 1) best' hbs
    · exact hbs

theorem outerLoop_startSome (difficulty : Nat) (sc : (Int × Int) → (Int × Int) → Int)
    (stop : Nat → Bool) :
    ∀ (l : List ((Int × Int) × List (Int × Int))) (k : Nat),
      (∃ pm, pm ∈ movePairs l) →
      (outerLoop difficulty sc stop l k none).isSome = true := by
  intro l
  induction l with
  | nil =>
    rintro k ⟨pm, hpm⟩
    cases hpm
  | cons e rest ih =>
    rintro k ⟨pm, hpm⟩
    unfold outerLoop
    rcases he2 : e.2 with _ | ⟨m, ms⟩
    · have hin : innerLoop difficulty sc stop e.1 [] k none = (none, k, false) := rfl
      rw [hin]
      dsimp only
      rw [if_neg (by rintro ⟨_, hx⟩; cases hx)]
      apply ih (k + 1)
      rw [movePairs_cons, List.mem_append] at hpm
      rcases hpm with hpm | hpm
      · rw [List.mem_map] at hpm
        obtain ⟨m, hm, _⟩ := hpm
        rw [he2] at hm
        cases hm
      · exact ⟨pm, hpm⟩
    · rcases hin : innerLoop difficulty sc stop e.1 (m :: ms) k none with ⟨best', k', flag⟩
      have hbs : best'.isSome = true := by
        have := innerLoop_startSome difficulty sc stop e.1 m ms k
        rw [hin] at this
        exact this
      cases flag
      · dsimp only
        split
        · exact hbs
        · exact outerLoop_isSome difficulty sc stop rest (k' + 1) best' hbs
      · exact hbs

theorem quickOpeningMove_mem (color : Color)
    (order : List ((Int × Int) × List (Int × Int)) → List ((Int × Int) × List (Int × Int)))
    (vm : List ((Int × Int) × List (Int × Int)))
    (horder : ∀ pm, pm ∈ movePairs (order vm) ↔ pm ∈ movePairs vm) :
    ∀ mv, quickOpeningMove color order vm = some mv → mv ∈ movePairs vm := by
  intro mv h
  unfold quickOpeningMove at h
  dsimp only at h
  split at h
  case h_1 mv1 heq =>
    injection h with he
    subst he
    obtain ⟨c, hc, hf⟩ := List.exists_of_findSome?_eq_some heq
    rcases hlk : lookupMoves vm (if color = Color.white then 6 else 1, c) with _ | moves
    · rw [hlk] at hf
      cases hf
    · rw [hlk] at hf
      dsimp only at hf
      rcases ite_eq_iff.mp hf with ⟨hfwd, he2⟩ | ⟨hx, he2⟩
      · injection he2 with he2
        subst he2
        exact mem_movePairs.mpr ⟨moves, lookupMoves_some hlk, hfwd⟩
      · cases he2
  case h_2 heq =>
    split at h
    case h_1 mv1 heq2 =>
      injection h with he
      subst he
      obtain ⟨c, hc, hf⟩ := List.exists_of_findSome?_eq_some heq2
      rcases hlk : lookupMoves vm (if color = Color.white then 7 else 0, c) with _ | moves
      · rw [hlk] at hf
        cases hf
      · rw [hlk] at hf
        dsimp only at hf
        rw [Option.map_eq_some'] at hf
        obtain ⟨t, hft, hte⟩ := hf
        subst hte
        exact mem_movePairs.mpr ⟨moves, lookupMoves_some hlk, List.mem_of_find?_eq_some hft⟩
    case h_2 heq2 =>
      split at h
      case h_1 pos m ms rest heq3 =>
        injection h with he
        subst he
        rw [← horder]
        rw [heq3, movePairs_cons, List.mem_append]
        left
        exact List.mem_map.mpr ⟨m, List.mem_cons_self m ms, rfl⟩
      case h_2 =>
        obtain ⟨e, he, hf⟩ := List.exists_of_findSome?_eq_some h
        rcases he2 : e.2 with _ | ⟨m, ms⟩
        · rw [he2] at hf
          cases hf
        · rw [he2] at hf
          injection hf with hfe
          subst hfe
          refine mem_movePairs.mpr ⟨e.2, he, ?_⟩
          rw [he2]
          exact List.mem_cons_self m ms

theorem quickOpeningMove_none (color : Color)
    (order : List ((Int × Int) × List (Int × Int)) → List ((Int × Int) × List (Int × Int)))
    (vm : List ((Int × Int) × List (Int × Int)))
    (h : quickOpeningMove color order vm = none) :
    ∀ e ∈ vm, e.2 = [] := by
  intro e he
  unfold quickOpeningMove at h
  dsimp only at h
  split at h
  case h_1 => cases h
  case h_2 =>
    split at h
    case h_1 => cases h
    case h_2 =>
      split at h
      case h_1 => cases h
      case h_2 =>
        rw [List.findSome?_eq_none_iff] at h
        have := h e he
        rcases he2 : e.2 with _ | ⟨m, ms⟩
        · rfl
        · rw [he2] at this
          cases this

/-- C2: `ChessAI.get_move` returns `None` if and only if the colour has
zero legal moves; when it returns a move `(start, end)`, `end` is in
`get_valid_moves(start)` and the piece at `start` has the AI's colour.
Proved for every score function `sc`, time oracle `stop` and move
ordering `order` that permutes the candidate pairs, since the numeric
evaluation constants are irrelevant to the claim. -/
theorem getMove_spec (b : Board) (color : Color) (difficulty : Nat)
    (sc : (Int × Int) → (Int × Int) → Int) (stop : Nat → Bool)
    (order : List ((Int × Int) × List (Int × Int)) → List ((Int × Int) × List (Int × Int)))
    (horder : ∀ pm, pm ∈ movePairs (order (getAllValidMoves b color)) ↔
        pm ∈ movePairs (getAllValidMoves b color)) :
    (getMove color difficulty b sc stop order = none ↔ getAllValidMoves b color = []) ∧
    (∀ pos m, getMove color difficulty b sc stop order = some (pos, m) →
      m ∈ b.getValidMoves pos.1 pos.2 ∧
      ∃ p, b.getPiece pos.1 pos.2 = some p ∧ p.color = color) := by
  have hsome : getAllValidMoves b color ≠ [] →
      (getMove color difficulty b sc stop order).isSome = true := by
    intro hne
    rcases hvm : getAllValidMoves b color with _ | ⟨⟨pos0, moves0⟩, rest⟩
    · exact absurd hvm hne
    · have hmemE : ((pos0, moves0) : (Int × Int) × List (Int × Int)) ∈
          getAllValidMoves b color := by
        rw [hvm]
        exact List.mem_cons_self _ rest
      obtain ⟨_, _, hne2⟩ := mem_getAllValidMoves hmemE
      rcases he2 : moves0 with _ | ⟨m0, ms0⟩
      · exact absurd he2 hne2
      subst he2
      rw [hvm] at horder
      unfold getMove
      dsimp only
      rw [hvm]
      dsimp only [List.isEmpty]
      rw [if_neg (show ¬((false : Bool) = true) by decide)]
      split
      · rfl
      · split
        · rcases hq : quickOpeningMove color order ((pos0, m0 :: ms0) :: rest)
            with _ | mv
          · have := quickOpeningMove_none color order _ hq (pos0, m0 :: ms0)
              (List.mem_cons_self _ rest)
            exact (List.cons_ne_nil m0 ms0 this).elim
          · rfl
        · have hpm : ((pos0, m0) : (Int × Int) × (Int × Int)) ∈
              movePairs ((pos0, m0 :: ms0) :: rest) :=
            mem_movePairs.mpr ⟨m0 :: ms0, List.mem_cons_self _ rest,
              List.mem_cons_self m0 ms0⟩
          have houter := outerLoop_startSome difficulty sc stop
            (order ((pos0, m0 :: ms0) :: rest)) 0
            ⟨(pos0, m0), (horder (pos0, m0)).mpr hpm⟩
          rcases Option.isSome_iff_exists.mp houter with ⟨cand, hcand⟩
          rw [hcand]
          rfl
  constructor
  · constructor
    · intro h
      by_contra hne
      have := hsome hne
      rw [h] at this
      cases this
    · intro hvm
      unfold getMove
      dsimp only
      rw [if_pos (List.isEmpty_iff.mpr hvm)]
  · intro pos m h
    unfold getMove at h
    dsimp only at h
    split at h
    · cases h
    · split at h
      · split at h
        case h_1 pos0 m0 ms0 rest heq =>
          injection h with he
          refine @movePairs_getAllValidMoves b color (pos, m) ?_
          rw [mem_movePairs]
          refine ⟨m0 :: ms0, ?_, ?_⟩
          · have h1 : pos = pos0 := by
              have := congrArg Prod.fst he
              exact this.symm
            rw [h1, heq]
            exact List.mem_cons_self _ rest
          · have h2 : m = m0 := by
              have := congrArg Prod.snd he
              exact this.symm
            rw [h2]
            exact List.mem_cons_self m0 ms0
        case h_2 => cases h
      · split at h
        · exact movePairs_getAllValidMoves
            (quickOpeningMove_mem color order _ horder (pos, m) h)
        · rw [Option.map_eq_some'] at h
          obtain ⟨cand, hout, hc1⟩ := h
          rcases outerLoop_mem difficulty sc stop
              (order (getAllValidMoves b color)) 0 none cand hout with h1 | h1
          · cases h1
          · exact movePairs_getAllValidMoves (hc1 ▸ (horder cand.1).mp h1)

theorem getMove_spec_witness :
    (getMove Color.white 2 initialBoard (fun _ _ => 0) (fun _ => false) id = none ↔
      getAllValidMoves initialBoard Color.white = []) ∧
    (∀ pos m,
      getMove Color.white 2 initialBoard (fun _ _ => 0) (fun _ => false) id = some (pos, m) →
      m ∈ initialBoard.getValidMoves pos.1 pos.2 ∧
      ∃ p, initialBoard.getPiece pos.1 pos.2 = some p ∧ p.color = Color.white) :=
  getMove_spec initialBoard Color.white 2 (fun _ _ => 0) (fun _ => false) id
    (fun _ => Iff.rfl)

end ChessSpec
